import Mathlib

/-!
Shallow embedding of the algorithmic core of the `pipe-align-predict`
pipeline (in-line pipeline inspection alignment, anomaly matching and
corrosion growth analysis), together with proofs of the specification's
testable properties.

Conventions of the embedding:
* Python/numpy floats are modelled as exact rationals (`ℚ`); `np.nan`
  becomes `Option.none` (or an explicit `nan` constructor where `inf` is
  also a possible value), and `np.inf` an explicit constructor.
* `round(x, d)` / `np.round(x, d)` (round half to even) is `roundTo d x`.
* pandas DataFrames become lists of records; a DataFrame's index becomes
  the position of the record in the originating list.
* `scipy.optimize.linear_sum_assignment` is modelled by a brute-force
  minimum-cost assignment (`lsa`): it returns an optimal one-to-one
  assignment of `min nA nB` pairs, which is the documented contract of
  the SciPy routine.
-/

/-! ## Rounding (Python `round` / `np.round`: round half to even) -/

/-- Round a rational to the nearest integer, ties to the nearest even
integer (the behaviour of Python's `round` and of `np.round`). -/
def pyRound (x : ℚ) : ℤ :=
  let f := ⌊x⌋
  let frac := x - f
  if frac < 1/2 then f
  else if 1/2 < frac then f + 1
  else if f % 2 = 0 then f else f + 1

/-- `round(x, d)` of Python: round to `d` decimal digits, ties to even. -/
def roundTo (d : ℕ) (x : ℚ) : ℚ :=
  (pyRound (x * 10 ^ d) : ℚ) / 10 ^ d

theorem pyRound_sub_le (x : ℚ) : |(pyRound x : ℚ) - x| ≤ 1/2 := by
  unfold pyRound
  have hfl : (⌊x⌋ : ℚ) ≤ x := Int.floor_le x
  have hfu : x < ⌊x⌋ + 1 := Int.lt_floor_add_one x
  by_cases h1 : x - ⌊x⌋ < 1/2
  · simp only [h1, if_true]
    rw [abs_sub_comm, abs_of_nonneg (by linarith)]
    linarith
  · simp only [h1, if_false]
    by_cases h2 : 1/2 < x - ⌊x⌋
    · simp only [h2, if_true]
      rw [abs_of_nonneg (by push_cast; linarith)]
      push_cast
      linarith
    · have heq : x - ⌊x⌋ = 1/2 := le_antisymm (not_lt.mp h2) (not_lt.mp h1)
      simp only [h2, if_false]
      by_cases h3 : ⌊x⌋ % 2 = 0 <;> simp only [h3, if_true, if_false]
      · rw [abs_sub_comm, abs_of_nonneg (by linarith)]
        linarith
      · rw [abs_of_nonneg (by push_cast; linarith)]
        push_cast
        linarith

theorem roundTo_sub_le (d : ℕ) (x : ℚ) :
    |roundTo d x - x| ≤ 1 / (2 * 10 ^ d) := by
  unfold roundTo
  have hp : (0:ℚ) < 10 ^ d := by positivity
  have h := pyRound_sub_le (x * 10 ^ d)
  have hrw : (pyRound (x * 10 ^ d) : ℚ) / 10 ^ d - x
      = ((pyRound (x * 10 ^ d) : ℚ) - x * 10 ^ d) / 10 ^ d := by
    field_simp
    ring
  rw [hrw, abs_div, abs_of_pos hp, div_le_div_iff₀ hp (by positivity)]
  calc |(pyRound (x * 10 ^ d) : ℚ) - x * 10 ^ d| * (2 * 10 ^ d)
      ≤ (1/2) * (2 * 10 ^ d) := by
        apply mul_le_mul_of_nonneg_right h (by positivity)
    _ = 1 * 10 ^ d := by ring

theorem pyRound_le_of_le {x y : ℚ} (h : x ≤ y) : pyRound x ≤ pyRound y := by
  rcases eq_or_lt_of_le h with heq | hlt
  · subst heq; exact le_refl _
  · have hx := pyRound_sub_le x
    have hy := pyRound_sub_le y
    rw [abs_le] at hx hy
    have hq : (pyRound x : ℚ) < (pyRound y : ℚ) + 1 := by linarith
    have : pyRound x < pyRound y + 1 := by exact_mod_cast hq
    omega

theorem roundTo_int (d : ℕ) (n : ℤ) : roundTo d (n : ℚ) = n := by
  unfold roundTo pyRound
  have h1 : ((n : ℚ) * 10 ^ d) = ((n * 10 ^ d : ℤ) : ℚ) := by push_cast; ring
  rw [h1, Int.floor_intCast]
  simp only [sub_self]
  norm_num

theorem roundTo_mono (d : ℕ) {x y : ℚ} (h : x ≤ y) : roundTo d x ≤ roundTo d y := by
  unfold roundTo
  have hp : (0:ℚ) < 10 ^ d := by positivity
  have h2 : (pyRound (x * 10 ^ d) : ℚ) ≤ (pyRound (y * 10 ^ d) : ℚ) := by
    exact_mod_cast pyRound_le_of_le (mul_le_mul_of_nonneg_right h (le_of_lt hp))
  exact div_le_div_of_nonneg_right h2 hp.le

/-! ## `src/growth.py`: growth rates, remaining life, severity -/

/-- Possible values of a float column that can hold `NaN` and `inf`
(e.g. `remaining_life_yr`). -/
inductive RLife where
  | nan : RLife
  | inf : RLife
  | fin (q : ℚ) : RLife
  deriving DecidableEq, Repr

/-- `DEFAULT_CRITICAL_DEPTH_PCT = 80.0` in `growth.py`. -/
def DEFAULT_CRITICAL_DEPTH_PCT : ℚ := 80

/-- Input row of `compute_growth_rates`: the depth/length/width columns
of a matched anomaly pair (absent values are `none`). -/
structure GrowthInRow where
  depth_pct_a : Option ℚ := none
  depth_pct_b : Option ℚ := none
  length_a : Option ℚ := none
  length_b : Option ℚ := none
  width_a : Option ℚ := none
  width_b : Option ℚ := none
  deriving Repr, DecidableEq

/-- Output row of `compute_growth_rates`: input columns plus the growth
rate columns it adds. -/
structure GrowthRow extends GrowthInRow where
  depth_growth_pct_per_yr : Option ℚ := none
  length_growth_in_per_yr : Option ℚ := none
  width_growth_in_per_yr : Option ℚ := none
  negative_growth_flag : Bool := false
  deriving Repr, DecidableEq

/-- The input-validation error raised by `compute_growth_rates`
(`ValueError: years_between must be positive`). -/
inductive GrowthError where
  | nonPositiveYears : GrowthError
  deriving DecidableEq, Repr

/-- `(x_b − x_a) / years` when both sides are present, else `NaN`
(the `np.where(a.notna() & b.notna(), (b − a)/years, nan)` pattern). -/
def growthRate (a b : Option ℚ) (years : ℚ) : Option ℚ :=
  match a, b with
  | some x, some y => some ((y - x) / years)
  | _, _ => none

/-- `compute_growth_rates` from `src/growth.py`: on an empty table it
returns the empty copy before any validation; otherwise it raises when
`years_between <= 0`, and else adds the three rate columns and the
negative-growth flag (`rate < 0` is `False` on `NaN`). -/
def compute_growth_rates (matched : List GrowthInRow) (years_between : ℚ) :
    Except GrowthError (List GrowthRow) :=
  if matched.isEmpty then .ok []
  else if years_between ≤ 0 then .error .nonPositiveYears
  else .ok <| matched.map fun r =>
    let dg := growthRate r.depth_pct_a r.depth_pct_b years_between
    { r with
      depth_growth_pct_per_yr := dg
      length_growth_in_per_yr := growthRate r.length_a r.length_b years_between
      width_growth_in_per_yr := growthRate r.width_a r.width_b years_between
      negative_growth_flag := match dg with | some g => decide (g < 0) | none => false }

/-- Input row of `estimate_remaining_life`: current depth and depth
growth rate (absent/NaN values are `none`). -/
structure RemLifeInRow where
  depth_pct_b : Option ℚ := none
  depth_growth_pct_per_yr : Option ℚ := none
  deriving Repr, DecidableEq

/-- Output row of `estimate_remaining_life`. -/
structure RemLifeRow extends RemLifeInRow where
  remaining_life_yr : RLife := .nan
  already_critical_flag : Bool := false
  deriving Repr, DecidableEq

/-- Per-row value of `remaining_life_yr` before rounding, following the
two `np.where` layers of `estimate_remaining_life`: start from `NaN`;
where growth is positive and depth present, `(C−depth)/growth` if the
gap is positive else `0`; where growth is present, non-positive and
depth present, `inf` (this second layer overrides nothing of the first:
the two masks are disjoint). -/
def remainingLifeVal (depth_b growth : Option ℚ) (critical : ℚ) : RLife :=
  match growth, depth_b with
  | some g, some d =>
    if 0 < g then
      if 0 < critical - d then .fin ((critical - d) / g) else .fin 0
    else .inf
  | _, _ => .nan

/-- `np.round(x, 2)` on a column that can hold `NaN`/`inf`. -/
def roundRLife (r : RLife) : RLife :=
  match r with
  | .fin q => .fin (roundTo 2 q)
  | other => other

/-- `estimate_remaining_life` from `src/growth.py`: adds
`remaining_life_yr` (rounded to 2 decimals) and `already_critical_flag`
(`depth_b >= critical`, `False` when depth is absent). -/
def estimate_remaining_life (df : List RemLifeInRow) (critical_depth_pct : ℚ) :
    List RemLifeRow :=
  df.map fun r =>
    { r with
      remaining_life_yr :=
        roundRLife (remainingLifeVal r.depth_pct_b r.depth_growth_pct_per_yr critical_depth_pct)
      already_critical_flag :=
        match r.depth_pct_b with
        | some d => decide (critical_depth_pct ≤ d)
        | none => false }

example : estimate_remaining_life [{ depth_pct_b := some 40, depth_growth_pct_per_yr := some 5 }]
    80 = [{ depth_pct_b := some 40, depth_growth_pct_per_yr := some 5,
            remaining_life_yr := .fin 8, already_critical_flag := false }] := by
  simp [estimate_remaining_life, remainingLifeVal, roundRLife]
  norm_num
  have h8 : ((8:ℚ)) = ((8:ℤ) : ℚ) := by norm_num
  rw [h8, roundTo_int]

/-- Input row of `compute_severity_score`: growth rate, current depth
(both possibly NaN) and remaining life (possibly NaN or inf). -/
structure SevInRow where
  depth_growth_pct_per_yr : Option ℚ := none
  depth_pct_b : Option ℚ := none
  remaining_life_yr : RLife := .nan
  deriving Repr, DecidableEq

/-- Output row of `compute_severity_score`. -/
structure SevRow extends SevInRow where
  severity_score : ℚ
  deriving Repr, DecidableEq

/-- The inverse-remaining-life urgency signal of `compute_severity_score`:
`1.0 / remaining.replace(0, nan).fillna(inf)` followed by
`replace([inf, -inf], 0)`.  A zero remaining life is first replaced by
`NaN`, then filled with `inf`, and `1/inf = 0`; `NaN` and `inf` likewise
contribute `0`; a finite non-zero value contributes its reciprocal. -/
def invRemaining : RLife → ℚ
  | .nan => 0
  | .inf => 0
  | .fin q => if q = 0 then 0 else 1/q

/-- `s.min()` of a pandas Series holding the given (already NaN-filled)
values; the `[]` case is never reached by `_minmax` on the non-empty
frames this development states properties about. -/
def colMin : List ℚ → ℚ
  | [] => 0
  | x :: xs => xs.foldl min x

/-- `s.max()` of a pandas Series holding the given values. -/
def colMax : List ℚ → ℚ
  | [] => 0
  | x :: xs => xs.foldl max x

/-- `_minmax` from `compute_severity_score` (the series is already
NaN-filled by the caller in this embedding): all-zero column when
`hi - lo < 1e-12`, else `(s - lo)/(hi - lo)`. -/
def minmaxNorm (l : List ℚ) : List ℚ :=
  if colMax l - colMin l < 1/10^12 then l.map fun _ => 0
  else l.map fun x => (x - colMin l) / (colMax l - colMin l)

/-- The severity scores of `compute_severity_score`, one per input row in
input order: the weighted sum of the three min-max-normalised signals,
scaled by 100 and rounded to 2 decimals. -/
def severityScores (rows : List SevInRow)
    (w_growth w_depth w_remaining : ℚ) : List ℚ :=
  let growthFilled := rows.map fun r =>
    ((r.depth_growth_pct_per_yr.map fun g => max g 0).getD 0)
  let depthFilled := rows.map fun r => r.depth_pct_b.getD 0
  let invFilled := rows.map fun r => invRemaining r.remaining_life_yr
  let ng := minmaxNorm growthFilled
  let nd := minmaxNorm depthFilled
  let nr := minmaxNorm invFilled
  (List.range rows.length).map fun i =>
    roundTo 2 ((w_growth * ng.getD i 0 + w_depth * nd.getD i 0
      + w_remaining * nr.getD i 0) * 100)

/-- `compute_severity_score` from `src/growth.py`: compute the score
column, then sort by it descending (`sort_values(ascending=False)`; the
unstable quicksort of pandas is realised here by an insertion sort, any
tie order being acceptable). Default weights 0.4 / 0.35 / 0.25. -/
def compute_severity_score (rows : List SevInRow)
    (w_growth w_depth w_remaining : ℚ) : List SevRow :=
  let scored := (rows.zip (severityScores rows w_growth w_depth w_remaining)).map
    fun p => { p.1 with severity_score := p.2 }
  List.insertionSort (fun a b => b.severity_score ≤ a.severity_score) scored

/-! ### Lemmas about column min/max and min-max normalisation -/

theorem foldl_min_le_init (l : List ℚ) (a : ℚ) : l.foldl min a ≤ a := by
  induction l generalizing a with
  | nil => exact le_refl a
  | cons x xs ih => exact le_trans (ih (min a x)) (min_le_left a x)

theorem foldl_min_le_mem (l : List ℚ) (a x : ℚ) (hx : x ∈ l) : l.foldl min a ≤ x := by
  induction l generalizing a with
  | nil => cases hx
  | cons y ys ih =>
    rcases List.mem_cons.mp hx with rfl | h
    · exact le_trans (foldl_min_le_init ys (min a x)) (min_le_right a x)
    · exact ih (min a y) h

theorem colMin_le {l : List ℚ} {x : ℚ} (hx : x ∈ l) : colMin l ≤ x := by
  cases l with
  | nil => cases hx
  | cons y ys =>
    rcases List.mem_cons.mp hx with rfl | h
    · exact foldl_min_le_init ys x
    · exact foldl_min_le_mem ys y x h

theorem init_le_foldl_max (l : List ℚ) (a : ℚ) : a ≤ l.foldl max a := by
  induction l generalizing a with
  | nil => exact le_refl a
  | cons x xs ih => exact le_trans (le_max_left a x) (ih (max a x))

theorem mem_le_foldl_max (l : List ℚ) (a x : ℚ) (hx : x ∈ l) : x ≤ l.foldl max a := by
  induction l generalizing a with
  | nil => cases hx
  | cons y ys ih =>
    rcases List.mem_cons.mp hx with rfl | h
    · exact le_trans (le_max_right a x) (init_le_foldl_max ys (max a x))
    · exact ih (max a y) h

theorem le_colMax {l : List ℚ} {x : ℚ} (hx : x ∈ l) : x ≤ colMax l := by
  cases l with
  | nil => cases hx
  | cons y ys =>
    rcases List.mem_cons.mp hx with rfl | h
    · exact init_le_foldl_max ys x
    · exact mem_le_foldl_max ys y x h

theorem minmaxNorm_mem_unit {l : List ℚ} {x : ℚ} (hx : x ∈ minmaxNorm l) :
    0 ≤ x ∧ x ≤ 1 := by
  unfold minmaxNorm at hx
  split at hx
  case isTrue =>
    rw [List.mem_map] at hx
    obtain ⟨_, _, rfl⟩ := hx
    norm_num
  case isFalse hdeg =>
    rw [List.mem_map] at hx
    obtain ⟨y, hy, rfl⟩ := hx
    have hlo := colMin_le hy
    have hhi := le_colMax hy
    have hpos : (0:ℚ) < colMax l - colMin l := by
      push_neg at hdeg
      have : (0:ℚ) < 1/10^12 := by norm_num
      linarith
    constructor
    · exact div_nonneg (by linarith) hpos.le
    · rw [div_le_one hpos]
      linarith

theorem minmaxNorm_length (l : List ℚ) : (minmaxNorm l).length = l.length := by
  unfold minmaxNorm
  split <;> rw [List.length_map]

theorem getD_mem_of_lt {l : List ℚ} {i : ℕ} (h : i < l.length) : l.getD i 0 ∈ l := by
  have h1 : l.get? i = some (l.get ⟨i, h⟩) := List.get?_eq_get h
  rw [List.getD, h1]
  exact List.get_mem l i h

theorem severityScores_mem_range {rows : List SevInRow} {s : ℚ}
    (hw : s ∈ severityScores rows (2/5) (7/20) (1/4)) : 0 ≤ s ∧ s ≤ 100 := by
  unfold severityScores at hw
  simp only [List.mem_map, List.mem_range] at hw
  obtain ⟨i, hi, rfl⟩ := hw
  have comp : ∀ (base : List ℚ), base.length = rows.length →
      0 ≤ (minmaxNorm base).getD i 0 ∧ (minmaxNorm base).getD i 0 ≤ 1 := by
    intro base hlen
    have hil : i < (minmaxNorm base).length := by
      rw [minmaxNorm_length, hlen]; exact hi
    exact minmaxNorm_mem_unit (getD_mem_of_lt hil)
  obtain ⟨hg0, hg1⟩ := comp (rows.map fun r =>
    ((r.depth_growth_pct_per_yr.map fun g => max g 0).getD 0)) (List.length_map _ _)
  obtain ⟨hd0, hd1⟩ := comp (rows.map fun r => r.depth_pct_b.getD 0) (List.length_map _ _)
  obtain ⟨hr0, hr1⟩ := comp (rows.map fun r => invRemaining r.remaining_life_yr)
    (List.length_map _ _)
  have hlow : (0:ℚ) ≤ (2/5 * (minmaxNorm (rows.map fun r =>
        ((r.depth_growth_pct_per_yr.map fun g => max g 0).getD 0))).getD i 0
      + 7/20 * (minmaxNorm (rows.map fun r => r.depth_pct_b.getD 0)).getD i 0
      + 1/4 * (minmaxNorm (rows.map fun r =>
        invRemaining r.remaining_life_yr)).getD i 0) * 100 := by
    have := hg0; have := hd0; have := hr0
    positivity
  have hhigh : (2/5 * (minmaxNorm (rows.map fun r =>
        ((r.depth_growth_pct_per_yr.map fun g => max g 0).getD 0))).getD i 0
      + 7/20 * (minmaxNorm (rows.map fun r => r.depth_pct_b.getD 0)).getD i 0
      + 1/4 * (minmaxNorm (rows.map fun r =>
        invRemaining r.remaining_life_yr)).getD i 0) * 100 ≤ 100 := by
    nlinarith
  constructor
  · have h0 : roundTo 2 ((0:ℤ) : ℚ) = ((0:ℤ) : ℚ) := roundTo_int 2 0
    have := roundTo_mono 2 hlow
    simp only [Int.cast_zero] at h0
    rw [h0] at this
    exact this
  · have h100 : roundTo 2 ((100:ℤ) : ℚ) = ((100:ℤ) : ℚ) := roundTo_int 2 100
    have := roundTo_mono 2 hhigh
    norm_num at h100
    rw [h100] at this
    exact this

/-! ### Claim C4: severity scores in [0,100], output sorted descending -/

/-- C4: for any non-empty matched-growth table, every `severity_score`
computed by `compute_severity_score` (with the default weights
0.4/0.35/0.25) lies in [0, 100], and the returned table is sorted
non-increasing by `severity_score`. -/
theorem severity_scores_in_range_and_sorted (rows : List SevInRow)
    (_hne : rows ≠ []) :
    (∀ r ∈ compute_severity_score rows (2/5) (7/20) (1/4),
      0 ≤ r.severity_score ∧ r.severity_score ≤ 100) ∧
    (compute_severity_score rows (2/5) (7/20) (1/4)).Pairwise
      (fun a b => b.severity_score ≤ a.severity_score) := by
  constructor
  · intro r hr
    unfold compute_severity_score at hr
    rw [(List.perm_insertionSort _ _).mem_iff, List.mem_map] at hr
    obtain ⟨p, hp, rfl⟩ := hr
    exact severityScores_mem_range (List.of_mem_zip hp).2
  · haveI : IsTotal SevRow (fun a b => b.severity_score ≤ a.severity_score) :=
      ⟨fun a b => le_total b.severity_score a.severity_score⟩
    haveI : IsTrans SevRow (fun a b => b.severity_score ≤ a.severity_score) :=
      ⟨fun _ _ _ hab hbc => le_trans hbc hab⟩
    exact List.sorted_insertionSort _ _

/-- Concrete input used by the witness of C4. -/
def sevExampleRows : List SevInRow :=
  [{ depth_growth_pct_per_yr := some 2, depth_pct_b := some 50,
     remaining_life_yr := .fin 10 },
   { depth_growth_pct_per_yr := some 0, depth_pct_b := some 0,
     remaining_life_yr := .inf }]

/-- Witness for C4 at a concrete two-row table. -/
theorem severity_scores_in_range_and_sorted_witness :
    (∀ r ∈ compute_severity_score sevExampleRows (2/5) (7/20) (1/4),
      0 ≤ r.severity_score ∧ r.severity_score ≤ 100) ∧
    (compute_severity_score sevExampleRows (2/5) (7/20) (1/4)).Pairwise
      (fun a b => b.severity_score ≤ a.severity_score) :=
  severity_scores_in_range_and_sorted sevExampleRows (List.cons_ne_nil _ _)

/-! ### Claim C10: zero remaining life contributes zero urgency -/

/-- Replace an exactly-zero remaining life by `inf`, leaving every other
column of the row unchanged. -/
def zeroRemToInf (r : SevInRow) : SevInRow :=
  if r.remaining_life_yr = .fin 0 then { r with remaining_life_yr := .inf } else r

/-- C10: `compute_severity_score` replaces a zero remaining life with
`inf` before inverting (`remaining.replace(0, nan).fillna(inf)`), so an
anomaly with `remaining_life_yr = 0` gets an inverse-remaining-life
urgency component of 0 — identical to an anomaly with infinite
remaining life: the severity scores are unchanged if every zero
remaining life in the table is replaced by `inf`. -/
theorem severity_zero_remaining_same_as_inf (rows : List SevInRow)
    (w_growth w_depth w_remaining : ℚ) :
    severityScores (rows.map zeroRemToInf) w_growth w_depth w_remaining
      = severityScores rows w_growth w_depth w_remaining
    ∧ invRemaining (.fin 0) = 0 ∧ invRemaining .inf = 0 := by
  refine ⟨?_, by simp [invRemaining], rfl⟩
  unfold severityScores
  rw [List.map_map, List.map_map, List.map_map, List.length_map]
  have hg : rows.map ((fun r : SevInRow =>
        ((r.depth_growth_pct_per_yr.map fun g => max g 0).getD 0)) ∘ zeroRemToInf)
      = rows.map fun r => ((r.depth_growth_pct_per_yr.map fun g => max g 0).getD 0) := by
    apply List.map_congr_left
    intro r _
    by_cases h : r.remaining_life_yr = RLife.fin 0 <;>
      simp [zeroRemToInf, h]
  have hd : rows.map ((fun r : SevInRow => r.depth_pct_b.getD 0) ∘ zeroRemToInf)
      = rows.map fun r => r.depth_pct_b.getD 0 := by
    apply List.map_congr_left
    intro r _
    by_cases h : r.remaining_life_yr = RLife.fin 0 <;>
      simp [zeroRemToInf, h]
  have hr : rows.map ((fun r : SevInRow => invRemaining r.remaining_life_yr) ∘ zeroRemToInf)
      = rows.map fun r => invRemaining r.remaining_life_yr := by
    apply List.map_congr_left
    intro r _
    by_cases h : r.remaining_life_yr = RLife.fin 0 <;>
      simp [zeroRemToInf, h, invRemaining]
  rw [hg, hd, hr]

/-! ### Claim C1 (corrected): remaining life at/above critical depth -/

/-- C1 (amended): in `estimate_remaining_life`, a row with both depth
and growth present gets `remaining_life_yr = 0` when the growth rate is
positive and the depth is already at or above the critical threshold,
and `inf` whenever the growth rate is non-positive — including rows
already at or above critical depth (the non-positive-rate rule, not the
already-critical rule, decides the overlap). -/
theorem remaining_life_critical_and_nonpositive (df : List RemLifeInRow)
    (C : ℚ) (r : RemLifeRow) (hr : r ∈ estimate_remaining_life df C) :
    ∀ g d, r.depth_growth_pct_per_yr = some g → r.depth_pct_b = some d →
      (0 < g → C ≤ d → r.remaining_life_yr = .fin 0) ∧
      (g ≤ 0 → r.remaining_life_yr = .inf) := by
  unfold estimate_remaining_life at hr
  rw [List.mem_map] at hr
  obtain ⟨s, _, rfl⟩ := hr
  intro g d hg hd
  simp only at hg hd
  constructor
  · intro hgpos hcd
    simp only [remainingLifeVal, hg, hd, if_pos hgpos, if_neg (by linarith : ¬ 0 < C - d),
      roundRLife]
    have h0 : roundTo 2 ((0:ℤ) : ℚ) = ((0:ℤ) : ℚ) := roundTo_int 2 0
    simp only [Int.cast_zero] at h0
    rw [h0]
  · intro hgneg
    simp only [remainingLifeVal, hg, hd, if_neg (by linarith : ¬ 0 < g), roundRLife]

/-- Witness for C1's amended statement: a concrete already-critical row
with positive growth gets remaining life 0, and a concrete
already-critical row with negative growth gets `inf`. -/
theorem remaining_life_critical_and_nonpositive_witness :
    ∃ r1 ∈ estimate_remaining_life
        [{ depth_pct_b := some 85, depth_growth_pct_per_yr := some 5 },
         { depth_pct_b := some 85, depth_growth_pct_per_yr := some (-3) }] 80,
      ∃ r2 ∈ estimate_remaining_life
        [{ depth_pct_b := some 85, depth_growth_pct_per_yr := some 5 },
         { depth_pct_b := some 85, depth_growth_pct_per_yr := some (-3) }] 80,
      r1.remaining_life_yr = .fin 0 ∧ r2.remaining_life_yr = .inf := by
  have e : estimate_remaining_life
      [{ depth_pct_b := some 85, depth_growth_pct_per_yr := some 5 },
       { depth_pct_b := some 85, depth_growth_pct_per_yr := some (-3) }] 80
      = [{ depth_pct_b := some 85, depth_growth_pct_per_yr := some 5,
           remaining_life_yr := roundRLife (remainingLifeVal (some 85) (some 5) 80),
           already_critical_flag := true },
         { depth_pct_b := some 85, depth_growth_pct_per_yr := some (-3),
           remaining_life_yr := roundRLife (remainingLifeVal (some 85) (some (-3)) 80),
           already_critical_flag := true }] := by
    simp [estimate_remaining_life]
    norm_num
  refine ⟨_, by rw [e]; exact List.mem_cons_self _ _,
          _, by rw [e]; exact List.mem_cons_of_mem _ (List.mem_cons_self _ _), ?_, ?_⟩
  · exact (remaining_life_critical_and_nonpositive _ 80 _
      (by rw [e]; exact List.mem_cons_self _ _) 5 85 rfl rfl).1 (by norm_num) (by norm_num)
  · exact (remaining_life_critical_and_nonpositive _ 80 _
      (by rw [e]; exact List.mem_cons_of_mem _ (List.mem_cons_self _ _)) (-3) 85
        rfl rfl).2 (by norm_num)

/-- Counterexample to C1 as stated: a row already at critical depth
(85 ≥ 80) but with non-positive growth rate gets `remaining_life_yr =
inf`, not 0 — the claim's "remaining life 0 regardless of its growth
rate" is false on the code. -/
theorem remaining_life_already_critical_counterexample :
    (estimate_remaining_life
        [{ depth_pct_b := some 85, depth_growth_pct_per_yr := some (-3) }] 80).map
      (·.remaining_life_yr) = [.inf]
    ∧ RLife.inf ≠ RLife.fin 0 := by
  constructor
  · simp [estimate_remaining_life, remainingLifeVal, roundRLife]
    norm_num
  · intro h
    cases h

/-! ### Claim C8 (corrected): non-positive years raise, except on empty input -/

/-- C8 (amended): for every **non-empty** matched-pair table and every
`years_between ≤ 0`, `compute_growth_rates` raises the input-validation
error and produces no output rows; an empty table short-circuits to an
empty result before the validation runs. -/
theorem growth_rates_nonpositive_years_error (matched : List GrowthInRow)
    (years : ℚ) (hne : matched ≠ []) (hy : years ≤ 0) :
    compute_growth_rates matched years = .error .nonPositiveYears := by
  unfold compute_growth_rates
  rw [if_neg (by simpa [List.isEmpty_iff] using hne), if_pos hy]

/-- Witness for C8's amended statement at a concrete one-row table. -/
theorem growth_rates_nonpositive_years_error_witness :
    compute_growth_rates [{ depth_pct_a := some 10, depth_pct_b := some 12 }] 0
      = .error .nonPositiveYears :=
  growth_rates_nonpositive_years_error _ 0 (List.cons_ne_nil _ _) le_rfl

/-- Counterexample to C8 as stated: on the empty matched table with
`years_between = 0` the function returns an empty table instead of
raising (the empty-input check precedes the validation). -/
theorem growth_rates_empty_table_counterexample :
    compute_growth_rates [] 0 = .ok []
    ∧ (Except.ok [] : Except GrowthError (List GrowthRow))
        ≠ .error .nonPositiveYears := by
  constructor
  · rfl
  · intro h
    cases h

/-! ## `src/alignment.py`: piecewise transforms and residuals -/

/-- A matched control-point pair (the `distance_a`/`distance_b` columns
of the matched-control-point table; `joint_number`/`feature_type` play
no role in the transform computation). -/
structure CPPair where
  distance_a : ℚ
  distance_b : ℚ
  deriving Repr, DecidableEq

/-- `matched_cp.sort_values("distance_a")` (any stable realisation of the
pandas sort; ties keep some order). -/
def cpSort (cps : List CPPair) : List CPPair :=
  List.insertionSort (fun p q => p.distance_a ≤ q.distance_a) cps

/-- An alignment segment of `compute_piecewise_transforms`.  `none`
bounds stand for the `-np.inf` / `np.inf` bounds of the single fallback
segment (a finite bound is always `some`). -/
structure Segment where
  seg_id : ℕ
  a_start : Option ℚ
  a_end : Option ℚ
  b_start : Option ℚ
  b_end : Option ℚ
  scale : ℚ
  shift : ℚ
  deriving Repr, DecidableEq

/-- Placeholder control point for positional access that the source
performs with `cp.iloc[i]` on indices that are always in range. -/
def defaultCP : CPPair := ⟨0, 0⟩

/-- Placeholder segment (used only for out-of-range positional access,
which the pipeline never performs on a non-empty segment list). -/
def defaultSegment : Segment := ⟨0, none, none, none, none, 1, 0⟩

/-- The body of the per-consecutive-pair loop of
`compute_piecewise_transforms` on the `distance_a`-sorted list `cp`:
the segment between `cp[i]` and `cp[i+1]`. -/
def segOf (cp : List CPPair) (i : ℕ) : Segment :=
  { seg_id := i,
    a_start := some (cp.getD i defaultCP).distance_a,
    a_end := some (cp.getD (i + 1) defaultCP).distance_a,
    b_start := some (cp.getD i defaultCP).distance_b,
    b_end := some (cp.getD (i + 1) defaultCP).distance_b,
    scale := roundTo 8
      (if |(cp.getD (i + 1) defaultCP).distance_b - (cp.getD i defaultCP).distance_b| < 1/10^9
       then (1 : ℚ)
       else ((cp.getD (i + 1) defaultCP).distance_a - (cp.getD i defaultCP).distance_a)
         / ((cp.getD (i + 1) defaultCP).distance_b - (cp.getD i defaultCP).distance_b)),
    shift := roundTo 4
      (if |(cp.getD (i + 1) defaultCP).distance_b - (cp.getD i defaultCP).distance_b| < 1/10^9
       then (cp.getD i defaultCP).distance_a - (cp.getD i defaultCP).distance_b
       else (cp.getD i defaultCP).distance_a
         - ((cp.getD (i + 1) defaultCP).distance_a - (cp.getD i defaultCP).distance_a)
           / ((cp.getD (i + 1) defaultCP).distance_b - (cp.getD i defaultCP).distance_b)
           * (cp.getD i defaultCP).distance_b) }

/-- `compute_piecewise_transforms` from `src/alignment.py`:
fewer than 2 matched control points give one full-range fallback
segment (scale 1, shift `a0 − b0` or 0; the fallback shift is *not*
rounded); otherwise, for each consecutive pair of the
`distance_a`-sorted control points, `scale = (a1−a0)/(b1−b0)` and
`shift = a0 − scale*b0` (degenerate `|b1−b0| < 1e-9`: scale 1, shift
`a0 − b0`), with scale rounded to 8 decimals and shift to 4. -/
def compute_piecewise_transforms (matched_cp : List CPPair) : List Segment :=
  if matched_cp.length < 2 then
    match matched_cp with
    | [c] => [{ seg_id := 0, a_start := none, a_end := none, b_start := none,
                b_end := none, scale := 1, shift := c.distance_a - c.distance_b }]
    | _ => [{ seg_id := 0, a_start := none, a_end := none, b_start := none,
              b_end := none, scale := 1, shift := 0 }]
  else
    let cp := cpSort matched_cp
    (List.range (cp.length - 1)).map (segOf cp)

/-- `b_start <= d`, where a `none` bound is `-np.inf`. -/
def bStartLe (s : Segment) (d : ℚ) : Bool :=
  match s.b_start with
  | none => true
  | some b => decide (b ≤ d)

/-- A row of the residual table of `compute_residuals`. -/
structure ResidualRow where
  cp : CPPair
  residual_ft : ℚ
  deriving Repr, DecidableEq

/-- `np.searchsorted(seg_b_starts, d, side="right")`: on the ascending
arrays this pipeline produces (the documented precondition of
`searchsorted`), the result is the number of entries `<= d`. -/
def searchSortedRight (segments : List Segment) (d : ℚ) : ℕ :=
  segments.countP fun s => bStartLe s d

/-- `idx = max(0, min(searchsorted(...) - 1, len(segments) - 1))` of the
source (the `max(0, ·)` is the truncation of natural subtraction). -/
def residualSegIdx (segments : List Segment) (d : ℚ) : ℕ :=
  min (searchSortedRight segments d - 1) (segments.length - 1)

/-- The segment a residual is computed against: the last segment whose
`b_start <= d`, clamped into range. -/
def residualSeg (segments : List Segment) (d : ℚ) : Segment :=
  segments.getD (residualSegIdx segments d) defaultSegment

/-- `compute_residuals` from `src/alignment.py`: for every matched
control point, pick the last segment whose `b_start <= distance_b`
(clamped into range), apply its transform and subtract `distance_a`;
the residual column is rounded to 6 decimals.  (On an empty segment
list the source would raise an `IndexError`; positional access is
modelled with a placeholder, and the pipeline always passes a
non-empty segment list.) -/
def compute_residuals (matched_cp : List CPPair) (segments : List Segment) :
    List ResidualRow :=
  matched_cp.map fun p =>
    { cp := p,
      residual_ft := roundTo 6 ((residualSeg segments p.distance_b).scale * p.distance_b
        + (residualSeg segments p.distance_b).shift - p.distance_a) }

theorem cpSort_sorted (cps : List CPPair) :
    (cpSort cps).Sorted (fun p q : CPPair => p.distance_a ≤ q.distance_a) := by
  haveI : IsTotal CPPair (fun p q : CPPair => p.distance_a ≤ q.distance_a) :=
    ⟨fun p q => le_total p.distance_a q.distance_a⟩
  haveI : IsTrans CPPair (fun p q : CPPair => p.distance_a ≤ q.distance_a) :=
    ⟨fun _ _ _ h1 h2 => le_trans h1 h2⟩
  exact List.sorted_insertionSort _ _

theorem cpSort_eq_self {cps : List CPPair}
    (h : cps.Sorted (fun p q : CPPair => p.distance_a ≤ q.distance_a)) :
    cpSort cps = cps :=
  List.Sorted.insertionSort_eq h

theorem cpSort_length (cps : List CPPair) : (cpSort cps).length = cps.length :=
  List.length_insertionSort _ _

/-! ### Claim C5 (corrected): segment count and `b_start` ordering -/

/-- C5 (amended): `compute_piecewise_transforms` returns exactly
`len(control_points) - 1` segments when 2 or more points are matched and
exactly 1 segment otherwise, and the segments' `b_start` values are
strictly increasing **provided** the `distance_a`-sorted control points
have strictly increasing Run-B distances (the function itself never
reorders or checks Run-B distances, so the monotonicity hypothesis
cannot be dropped). -/
theorem piecewise_transforms_segment_count (cps : List CPPair) :
    (2 ≤ cps.length → (compute_piecewise_transforms cps).length = cps.length - 1)
    ∧ (cps.length ≤ 1 → (compute_piecewise_transforms cps).length = 1)
    ∧ (((cpSort cps).map CPPair.distance_b).Chain' (· < ·) →
        ((compute_piecewise_transforms cps).map Segment.b_start).Chain'
          (fun x y => ∃ qx qy, x = some qx ∧ y = some qy ∧ qx < qy)) := by
  refine ⟨?_, ?_, ?_⟩
  · intro h2
    unfold compute_piecewise_transforms
    rw [if_neg (by omega)]
    simp [cpSort_length]
  · intro h1
    match cps, h1 with
    | [], _ => rfl
    | [c], _ => rfl
  · intro hb
    by_cases hlen : cps.length < 2
    · unfold compute_piecewise_transforms
      rw [if_pos hlen]
      match cps with
      | [] => simp
      | [c] => simp
      | c :: d :: t => simp only [List.length_cons] at hlen; omega
    · unfold compute_piecewise_transforms
      rw [if_neg hlen]
      rw [List.map_map]
      have hm : 2 ≤ (cpSort cps).length := by rw [cpSort_length]; omega
      obtain ⟨k, hk⟩ : ∃ k, (cpSort cps).length - 1 = k + 1 :=
        ⟨(cpSort cps).length - 2, by omega⟩
      rw [hk, List.chain'_map, List.chain'_range_succ]
      intro i hi
      refine ⟨((cpSort cps).getD i defaultCP).distance_b,
              ((cpSort cps).getD (i+1) defaultCP).distance_b, rfl, rfl, ?_⟩
      rw [List.chain'_iff_get] at hb
      have hib : i < ((cpSort cps).map CPPair.distance_b).length - 1 := by
        rw [List.length_map]; omega
      have hlt := hb i hib
      rw [List.get_map, List.get_map] at hlt
      rw [List.getD_eq_get (cpSort cps) defaultCP (show i < (cpSort cps).length by omega),
          List.getD_eq_get (cpSort cps) defaultCP (show i+1 < (cpSort cps).length by omega)]
      exact hlt

/-- Witness for C5 at three concrete control points with strictly
increasing Run-B distances: two segments, strictly increasing
`b_start`s. -/
theorem piecewise_transforms_segment_count_witness :
    (compute_piecewise_transforms [⟨0, 0⟩, ⟨10, 20⟩, ⟨30, 45⟩]).length = 3 - 1
    ∧ ((compute_piecewise_transforms [⟨0, 0⟩, ⟨10, 20⟩, ⟨30, 45⟩]).map
        Segment.b_start).Chain'
        (fun x y => ∃ qx qy, x = some qx ∧ y = some qy ∧ qx < qy) := by
  constructor
  · exact (piecewise_transforms_segment_count _).1 (by norm_num)
  · refine (piecewise_transforms_segment_count _).2.2 ?_
    rw [cpSort_eq_self (by norm_num [List.sorted_cons])]
    norm_num [List.chain'_cons]

/-- Counterexample to C5 as stated: for the `distance_a`-sorted list
`[(0,5), (1,5), (2,6)]` the two segments have `b_start = [5, 5]`, which
is not strictly increasing — the claim holds only when the Run-B
distances themselves increase strictly. -/
theorem piecewise_bstart_not_increasing_counterexample :
    (compute_piecewise_transforms [⟨0, 5⟩, ⟨1, 5⟩, ⟨2, 6⟩]).map Segment.b_start
      = [some 5, some 5]
    ∧ ¬ ((compute_piecewise_transforms [⟨0, 5⟩, ⟨1, 5⟩, ⟨2, 6⟩]).map
        Segment.b_start).Chain'
        (fun x y => ∃ qx qy, x = some qx ∧ y = some qy ∧ qx < qy) := by
  have hs : cpSort [⟨0, 5⟩, ⟨1, 5⟩, ⟨2, 6⟩] = [⟨0, 5⟩, ⟨1, 5⟩, ⟨2, 6⟩] :=
    cpSort_eq_self (by norm_num [List.sorted_cons])
  have he : (compute_piecewise_transforms [⟨0, 5⟩, ⟨1, 5⟩, ⟨2, 6⟩]).map Segment.b_start
      = [some 5, some 5] := by
    unfold compute_piecewise_transforms
    rw [if_neg (by norm_num), hs]
    simp [List.range_succ, segOf]
  refine ⟨he, ?_⟩
  rw [he]
  intro hch
  rw [List.chain'_cons] at hch
  obtain ⟨⟨qx, qy, h1, h2, h3⟩, _⟩ := hch
  rw [Option.some.injEq] at h1 h2
  rw [← h1, ← h2] at h3
  exact absurd h3 (lt_irrefl _)

/-! ### Claim C6 (corrected): round-trip residuals at control points -/

/-- The single constant-offset fallback segment of
`compute_piecewise_transforms` for exactly one matched control point. -/
def fallbackSegment (c : CPPair) : Segment :=
  { seg_id := 0, a_start := none, a_end := none, b_start := none,
    b_end := none, scale := 1, shift := c.distance_a - c.distance_b }

theorem roundTo_zero (d : ℕ) : roundTo d 0 = 0 := by
  have h := roundTo_int d 0
  simpa using h

theorem bStartLe_none {s : Segment} (h : s.b_start = none) (d : ℚ) :
    bStartLe s d = true := by
  unfold bStartLe
  rw [h]

theorem bStartLe_some {s : Segment} {b : ℚ} (h : s.b_start = some b) (d : ℚ) :
    bStartLe s d = decide (b ≤ d) := by
  unfold bStartLe
  rw [h]

theorem countP_range_min (m K : ℕ) (q : ℕ → Bool)
    (h : ∀ i < m, q i = true ↔ i ≤ K) :
    (List.range m).countP q = min (K + 1) m := by
  induction m with
  | zero => simp
  | succ m ih =>
    rw [List.range_succ, List.countP_append]
    have hm := h m (by omega)
    have ih2 := ih fun i hi => h i (by omega)
    by_cases hK : m ≤ K
    · have hq : q m = true := hm.mpr hK
      simp only [ih2, List.countP_cons, List.countP_nil, hq, if_true]
      omega
    · have hq : q m = false := by
        cases hqv : q m
        · rfl
        · exact absurd (hm.mp hqv) hK
      simp only [ih2, List.countP_cons, List.countP_nil, hq]
      simp only [Bool.false_eq_true, if_false]
      omega

/-- Rounding the scale to 8 decimals and the shift to 4 perturbs an
exact affine fit by at most `5e-9 * |b| + 5e-5`; with `|b| ≤ 1e6` the
6-decimal-rounded residual stays below `1e-2`. -/
theorem affine_round_bound (sc sh b target : ℚ)
    (hexact : sc * b + sh = target) (hb : |b| ≤ 10^6) :
    |roundTo 6 (roundTo 8 sc * b + roundTo 4 sh - target)| < 1/100 := by
  have h8 := roundTo_sub_le 8 sc
  have h4 := roundTo_sub_le 4 sh
  have hinner : |roundTo 8 sc * b + roundTo 4 sh - target| ≤ 1/200 + 1/20000 := by
    have hre : roundTo 8 sc * b + roundTo 4 sh - target
        = (roundTo 8 sc - sc) * b + (roundTo 4 sh - sh) := by
      rw [← hexact]; ring
    rw [hre]
    have hmul : |roundTo 8 sc - sc| * |b| ≤ (1/(2*10^8)) * 10^6 :=
      mul_le_mul h8 hb (abs_nonneg b) (by norm_num)
    calc |(roundTo 8 sc - sc) * b + (roundTo 4 sh - sh)|
        ≤ |(roundTo 8 sc - sc) * b| + |roundTo 4 sh - sh| := abs_add _ _
      _ = |roundTo 8 sc - sc| * |b| + |roundTo 4 sh - sh| := by rw [abs_mul]
      _ ≤ (1/(2*10^8)) * 10^6 + 1/(2*10^4) := by
          have h4' : |roundTo 4 sh - sh| ≤ 1/(2*10^4) := h4
          linarith
      _ = 1/200 + 1/20000 := by norm_num
  have h6 := roundTo_sub_le 6 (roundTo 8 sc * b + roundTo 4 sh - target)
  calc |roundTo 6 (roundTo 8 sc * b + roundTo 4 sh - target)|
      = |(roundTo 6 (roundTo 8 sc * b + roundTo 4 sh - target)
          - (roundTo 8 sc * b + roundTo 4 sh - target))
         + (roundTo 8 sc * b + roundTo 4 sh - target)| := by ring_nf
    _ ≤ |roundTo 6 (roundTo 8 sc * b + roundTo 4 sh - target)
          - (roundTo 8 sc * b + roundTo 4 sh - target)|
        + |roundTo 8 sc * b + roundTo 4 sh - target| := abs_add _ _
    _ ≤ 1/(2*10^6) + (1/200 + 1/20000) := by linarith
    _ < 1/100 := by norm_num

/-- The unrounded piecewise map sends the right endpoint `b1` of a
non-degenerate segment to `a1` exactly. -/
theorem affine_right_endpoint (a0 a1 b0 b1 : ℚ) (hne : b1 - b0 ≠ 0) :
    (a1 - a0) / (b1 - b0) * b1 + (a0 - (a1 - a0) / (b1 - b0) * b0) = a1 := by
  field_simp
  ring

/-- Residual bound for one non-degenerate segment evaluated at a point
`b` on which the unrounded affine map is exact. -/
theorem segOf_residual_bound (cps : List CPPair) (i : ℕ) (c0 c1 : CPPair)
    (hc0 : cps.getD i defaultCP = c0) (hc1 : cps.getD (i + 1) defaultCP = c1)
    (hspan : 1/10^9 ≤ c1.distance_b - c0.distance_b)
    (b target : ℚ) (hb : |b| ≤ 10^6)
    (hexact : (c1.distance_a - c0.distance_a) / (c1.distance_b - c0.distance_b) * b
      + (c0.distance_a - (c1.distance_a - c0.distance_a)
          / (c1.distance_b - c0.distance_b) * c0.distance_b) = target) :
    |roundTo 6 ((segOf cps i).scale * b + (segOf cps i).shift - target)| < 1/100 := by
  have hcond : ¬ |c1.distance_b - c0.distance_b| < 1/10^9 := by
    rw [abs_of_nonneg (by linarith)]
    linarith
  have hscale : (segOf cps i).scale = roundTo 8
      ((c1.distance_a - c0.distance_a) / (c1.distance_b - c0.distance_b)) := by
    simp only [segOf, hc0, hc1, hcond, if_false]
  have hshift : (segOf cps i).shift = roundTo 4 (c0.distance_a
      - (c1.distance_a - c0.distance_a) / (c1.distance_b - c0.distance_b)
        * c0.distance_b) := by
    simp only [segOf, hc0, hc1, hcond, if_false]
  rw [hscale, hshift]
  exact affine_round_bound _ _ _ _ hexact hb

/-- C6 (amended): for control points sorted by Run-A distance whose
Run-B distances increase by at least the degeneracy threshold `1e-9`
between consecutive points and stay within `1e6` ft in magnitude, every
residual of `compute_residuals` against the transform computed from
those same control points has absolute value below `1e-2` ft.  (Without
the magnitude bound the 8-decimal rounding of the scale can destroy the
fit, and without the minimum Run-B spacing a degenerate segment pins
the transform to the left point only.) -/
theorem residuals_small (cps : List CPPair)
    (hsort : cps.Sorted (fun p q : CPPair => p.distance_a ≤ q.distance_a))
    (hgap : cps.Chain' (fun p q : CPPair => p.distance_b + 1/10^9 ≤ q.distance_b))
    (hbound : ∀ p ∈ cps, |p.distance_b| ≤ 10^6) :
    ∀ r ∈ compute_residuals cps (compute_piecewise_transforms cps),
      |r.residual_ft| < 1/100 := by
  intro r hr
  unfold compute_residuals at hr
  rw [List.mem_map] at hr
  obtain ⟨p, hp, rfl⟩ := hr
  dsimp only
  by_cases hn2 : cps.length < 2
  · -- zero or one control point: the single fallback segment is exact
    have hone : cps = [p] := by
      match cps, hp, hn2 with
      | [c], hp, _ => rw [List.mem_singleton.mp hp]
      | c :: d :: t, _, hn2 => simp only [List.length_cons] at hn2; omega
    subst hone
    have hseg : compute_piecewise_transforms [p] = [fallbackSegment p] := by
      unfold compute_piecewise_transforms fallbackSegment
      rfl
    rw [hseg]
    have hrs : residualSeg [fallbackSegment p] p.distance_b = fallbackSegment p := by
      unfold residualSeg residualSegIdx searchSortedRight fallbackSegment bStartLe
      rfl
    rw [hrs]
    have hsc : (fallbackSegment p).scale = 1 := rfl
    have hsh : (fallbackSegment p).shift = p.distance_a - p.distance_b := rfl
    rw [hsc, hsh]
    have hzero : (1:ℚ) * p.distance_b + (p.distance_a - p.distance_b)
        - p.distance_a = 0 := by ring
    rw [hzero, roundTo_zero]
    norm_num
  · push_neg at hn2
    have hcp : cpSort cps = cps := cpSort_eq_self hsort
    have hsegs : compute_piecewise_transforms cps
        = (List.range (cps.length - 1)).map (segOf cps) := by
      unfold compute_piecewise_transforms
      rw [if_neg (by omega), hcp]
    rw [hsegs]
    haveI : IsTrans CPPair (fun p q : CPPair =>
        p.distance_b + 1/10^9 ≤ q.distance_b) :=
      ⟨fun a b c h1 h2 => by linarith⟩
    have hpair := List.chain'_iff_pairwise.mp hgap
    have hblt : ∀ (i j : Fin cps.length), i < j →
        (cps.get i).distance_b + 1/10^9 ≤ (cps.get j).distance_b :=
      fun i j hij => List.pairwise_iff_get.mp hpair i j hij
    obtain ⟨⟨k, hk⟩, rfl⟩ := List.mem_iff_get.mp hp
    have hq : ∀ i < cps.length - 1,
        (bStartLe (segOf cps i) ((cps.get ⟨k, hk⟩).distance_b)) = true ↔ i ≤ k := by
      intro i hi
      have hilt : i < cps.length := by omega
      have hbs : (segOf cps i).b_start
          = some ((cps.get ⟨i, hilt⟩).distance_b) := by
        simp only [segOf]
        rw [List.getD_eq_get cps defaultCP hilt]
      rw [bStartLe_some hbs]
      constructor
      · intro hdec
        by_contra hik
        push_neg at hik
        have hlt := hblt ⟨k, hk⟩ ⟨i, hilt⟩ (Fin.mk_lt_mk.mpr hik)
        have hle := of_decide_eq_true hdec
        linarith
      · intro hik
        apply decide_eq_true
        rcases eq_or_lt_of_le hik with heq | hlt
        · subst heq
          exact le_refl _
        · have := hblt ⟨i, hilt⟩ ⟨k, hk⟩ (Fin.mk_lt_mk.mpr hlt)
          linarith
    have hcount : searchSortedRight ((List.range (cps.length - 1)).map (segOf cps))
        ((cps.get ⟨k, hk⟩).distance_b) = min (k+1) (cps.length - 1) := by
      unfold searchSortedRight
      rw [List.countP_map]
      exact countP_range_min _ k _ hq
    have hmaplen : ((List.range (cps.length - 1)).map (segOf cps)).length
        = cps.length - 1 := by
      simp
    have hidx : residualSegIdx ((List.range (cps.length - 1)).map (segOf cps))
        ((cps.get ⟨k, hk⟩).distance_b) = min k (cps.length - 2) := by
      unfold residualSegIdx
      rw [hcount, hmaplen]
      omega
    have hgetseg : ∀ j, j < cps.length - 1 →
        ((List.range (cps.length - 1)).map (segOf cps)).getD j defaultSegment
          = segOf cps j := by
      intro j hj
      rw [List.getD_eq_get _ _ (by simpa using hj)]
      simp
    have hseg : residualSeg ((List.range (cps.length - 1)).map (segOf cps))
        ((cps.get ⟨k, hk⟩).distance_b) = segOf cps (min k (cps.length - 2)) := by
      unfold residualSeg
      rw [hidx]
      exact hgetseg _ (by omega)
    rw [hseg]
    have hbk : |(cps.get ⟨k, hk⟩).distance_b| ≤ 10^6 :=
      hbound _ (List.get_mem cps k hk)
    rcases Nat.lt_or_ge k (cps.length - 1) with hkle | hkge
    · -- left endpoint of segment k
      have hi0 : min k (cps.length - 2) = k := by omega
      rw [hi0]
      have hk1 : k + 1 < cps.length := by omega
      have hc0 : cps.getD k defaultCP = cps.get ⟨k, hk⟩ :=
        List.getD_eq_get cps defaultCP hk
      have hc1 : cps.getD (k+1) defaultCP = cps.get ⟨k+1, hk1⟩ :=
        List.getD_eq_get cps defaultCP hk1
      have hspan : 1/10^9 ≤ (cps.get ⟨k+1, hk1⟩).distance_b
          - (cps.get ⟨k, hk⟩).distance_b := by
        have := hblt ⟨k, hk⟩ ⟨k+1, hk1⟩ (Fin.mk_lt_mk.mpr (by omega))
        linarith
      exact segOf_residual_bound cps k _ _ hc0 hc1 hspan _ _ hbk (by ring)
    · -- last control point: right endpoint of the final segment
      have hkeq : k = cps.length - 1 := by omega
      have hi0 : min k (cps.length - 2) = cps.length - 2 := by omega
      rw [hi0]
      have hm1 : cps.length - 2 < cps.length := by omega
      have hc0 : cps.getD (cps.length - 2) defaultCP
          = cps.get ⟨cps.length - 2, hm1⟩ :=
        List.getD_eq_get cps defaultCP hm1
      have hkm : cps.length - 2 + 1 = k := by omega
      have hc1 : cps.getD (cps.length - 2 + 1) defaultCP = cps.get ⟨k, hk⟩ := by
        rw [hkm]
        exact List.getD_eq_get cps defaultCP hk
      have hspan : 1/10^9 ≤ (cps.get ⟨k, hk⟩).distance_b
          - (cps.get ⟨cps.length - 2, hm1⟩).distance_b := by
        have := hblt ⟨cps.length - 2, hm1⟩ ⟨k, hk⟩ (Fin.mk_lt_mk.mpr (by omega))
        linarith
      apply segOf_residual_bound cps (cps.length - 2) _ _ hc0 hc1 hspan _ _ hbk
      have hne : (cps.get ⟨k, hk⟩).distance_b
          - (cps.get ⟨cps.length - 2, hm1⟩).distance_b ≠ 0 := by
        have h9 : (0:ℚ) < 1/10^9 := by norm_num
        linarith
      exact affine_right_endpoint _ _ _ _ hne

/-- Witness for C6's amended statement at two concrete control points
`(0,1)` and `(10,11)`. -/
theorem residuals_small_witness :
    ∃ r ∈ compute_residuals [⟨0, 1⟩, ⟨10, 11⟩]
        (compute_piecewise_transforms [⟨0, 1⟩, ⟨10, 11⟩]),
      |r.residual_ft| < 1/100 := by
  have hs : ([⟨0, 1⟩, ⟨10, 11⟩] : List CPPair).Sorted
      (fun p q => p.distance_a ≤ q.distance_a) := by
    norm_num [List.sorted_cons]
  have hg : ([⟨0, 1⟩, ⟨10, 11⟩] : List CPPair).Chain'
      (fun p q => p.distance_b + 1/10^9 ≤ q.distance_b) := by
    norm_num [List.chain'_cons]
  have hb : ∀ p ∈ ([⟨0, 1⟩, ⟨10, 11⟩] : List CPPair), |p.distance_b| ≤ 10^6 := by
    intro p hp
    rcases List.mem_cons.mp hp with rfl | hp2
    · norm_num
    · rcases List.mem_cons.mp hp2 with rfl | hp3
      · norm_num
      · cases hp3
  exact ⟨_, List.mem_map_of_mem _ (List.mem_cons_self _ _),
    residuals_small _ hs hg hb _ (List.mem_map_of_mem _ (List.mem_cons_self _ _))⟩

theorem floor_one_div_thirty : ⌊(1/30 : ℚ)⌋ = 0 := by
  rw [Int.floor_eq_zero_iff]
  constructor <;> norm_num

theorem roundTo8_one_div_3e9 : roundTo 8 (1/3000000000 : ℚ) = 0 := by
  unfold roundTo
  have h1 : (1/3000000000 : ℚ) * 10^8 = 1/30 := by norm_num
  rw [h1]
  unfold pyRound
  rw [floor_one_div_thirty]
  norm_num

/-- Counterexample to C6 as stated: for the two matched control points
`(0, 0)` and `(1, 3e9)` — sorted by Run-A distance, Run-B distances
strictly increasing — the scale `1/3e9` rounds to 0 at 8 decimals, the
transform collapses to the zero map, and the residual at the second
control point is `-1` ft, far beyond `1e-2`. -/
theorem residuals_large_distance_counterexample :
    ∃ r ∈ compute_residuals [⟨0, 0⟩, ⟨1, 3*10^9⟩]
        (compute_piecewise_transforms [⟨0, 0⟩, ⟨1, 3*10^9⟩]),
      ¬ |r.residual_ft| < 1/100 := by
  have hsegs : compute_piecewise_transforms [⟨0, 0⟩, ⟨1, 3*10^9⟩]
      = [segOf [⟨0, 0⟩, ⟨1, 3*10^9⟩] 0] := by
    unfold compute_piecewise_transforms
    rw [if_neg (by norm_num), cpSort_eq_self (by norm_num [List.sorted_cons])]
    rfl
  have hsc : (segOf [⟨0, 0⟩, ⟨1, 3*10^9⟩] 0).scale = 0 := by
    simp only [segOf, List.getD]
    norm_num
    exact roundTo8_one_div_3e9
  have hsh : (segOf [⟨0, 0⟩, ⟨1, 3*10^9⟩] 0).shift = 0 := by
    simp only [segOf, List.getD]
    norm_num
    exact roundTo_zero 4
  have hbs : (segOf [⟨0, 0⟩, ⟨1, 3*10^9⟩] 0).b_start = some 0 := rfl
  have hrs : residualSeg [segOf [⟨0, 0⟩, ⟨1, 3*10^9⟩] 0] (3*10^9)
      = segOf [⟨0, 0⟩, ⟨1, 3*10^9⟩] 0 := by
    unfold residualSeg residualSegIdx searchSortedRight
    rw [List.countP_cons, List.countP_nil, bStartLe_some hbs]
    norm_num
  refine ⟨_, List.mem_map_of_mem _
    (List.mem_cons_of_mem _ (List.mem_cons_self _ _)), ?_⟩
  dsimp only
  rw [hsegs, hrs, hsc, hsh]
  have hval : (0:ℚ) * (3*10^9) + 0 - 1 = ((-1 : ℤ) : ℚ) := by norm_num
  rw [hval, roundTo_int]
  norm_num

/-! ## `src/preprocess.py` and `src/matching.py`: anomaly matching -/

/-- Python's float `%` for a positive modulus (`abs(a-b) % 360.0`). -/
def fmod (a b : ℚ) : ℚ := a - b * ⌊a / b⌋

/-- `clock_distance` from `src/preprocess.py`: smallest angular
difference on a 360-degree circle (range 0–180), `None` when either
side is unknown. -/
def clock_distance (a b : Option ℚ) : Option ℚ :=
  match a, b with
  | some x, some y => some (min (fmod |x - y| 360) (360 - fmod |x - y| 360))
  | _, _ => none

/-- `CONTROL_POINT_TYPES` from `src/preprocess.py`. -/
def CONTROL_POINT_TYPES : List String :=
  ["girth_weld", "valve", "tee", "tap", "flange", "bend"]

/-- `COMPATIBLE_TYPES` from `src/preprocess.py`: the default map holds
only identity entries. -/
def COMPATIBLE_TYPES : List (String × List String) :=
  [("metal_loss", ["metal_loss"]), ("dent", ["dent"]),
   ("manufacturing_anomaly", ["manufacturing_anomaly"]),
   ("girth_weld_anomaly", ["girth_weld_anomaly"])]

/-- `types_compatible` from `src/matching.py`: identical types always
match; otherwise `COMPATIBLE_TYPES.get(type_a, {type_a})` decides. -/
def types_compatible (type_a type_b : String) : Bool :=
  if type_a == type_b then true
  else
    match COMPATIBLE_TYPES.lookup type_a with
    | some s => s.contains type_b
    | none => type_b == type_a

/-- One canonical feature record, as consumed by the matching stage
(the columns `compute_pair_cost` and `_assign_segment` read). -/
structure FeatureRow where
  feature_id : String := ""
  distance : ℚ := 0
  corrected_distance : Option ℚ := none
  clock_deg : Option ℚ := none
  feature_type_norm : String := ""
  orientation : Option String := none
  depth_percent : Option ℚ := none
  length : Option ℚ := none
  width : Option ℚ := none
  wall_thickness : Option ℚ := none
  deriving Repr, DecidableEq

/-- `row_b.get("corrected_distance", row_b["distance"])`. -/
def effDistB (r : FeatureRow) : ℚ := r.corrected_distance.getD r.distance

/-- The cost-function weight dictionary. -/
structure Weights where
  w_dist : ℚ
  w_clock : ℚ
  w_depth : ℚ
  w_size : ℚ
  type_penalty : ℚ
  deriving Repr, DecidableEq

/-- `DEFAULT_WEIGHTS` from `src/matching.py`:
dist 1.0, clock 0.5, depth 0.1, size 0.05, type penalty 10.0. -/
def DEFAULT_WEIGHTS : Weights := ⟨1, 1/2, 1/10, 1/20, 10⟩

/-- `BIG_COST = 1e6`, the infeasible-cell sentinel. -/
def BIG_COST : ℚ := 10^6

/-- A `Δ` cost component that defaults to 0 when either side is
missing. -/
def optAbsDiff (a b : Option ℚ) : ℚ :=
  match a, b with
  | some x, some y => |x - y|
  | _, _ => 0

/-- The orientation hard filter: both known and different. -/
def orientConflict (a b : Option String) : Bool :=
  match a, b with
  | some x, some y => x != y
  | _, _ => false

/-- `compute_pair_cost` from `src/matching.py`: `None` on a hard-filter
failure (orientation known and different, or incompatible types), else
the weighted sum of distance, clock, depth and size differences plus
the type penalty.  (`ℚ` has no `NaN`, so the final `np.isnan(cost)`
guard of the source is vacuous here.) -/
def compute_pair_cost (row_a row_b : FeatureRow) (w : Weights) : Option ℚ :=
  if orientConflict row_a.orientation row_b.orientation then none
  else if !(types_compatible row_a.feature_type_norm row_b.feature_type_norm) then none
  else
    some (w.w_dist * |row_a.distance - effDistB row_b|
      + w.w_clock * ((clock_distance row_a.clock_deg row_b.clock_deg).getD 0)
      + w.w_depth * optAbsDiff row_a.depth_percent row_b.depth_percent
      + w.w_size * (optAbsDiff row_a.length row_b.length
          + optAbsDiff row_a.width row_b.width)
      + (if row_a.feature_type_norm == row_b.feature_type_norm then 0
         else w.type_penalty))

/-! ### Optimal one-to-one assignment (`scipy.linear_sum_assignment`) -/

/-- All ways to pick, in order, `n` distinct elements of `avail`
(the column choices of an injective row→column assignment). -/
def selections : ℕ → List ℕ → List (List ℕ)
  | 0, _ => [[]]
  | n+1, avail => avail.bind fun j => (selections n (avail.erase j)).map (j :: ·)

/-- Total cost of assigning row `i` to column `sel[i]`. -/
def totalCost (cost : ℕ → ℕ → ℚ) (sel : List ℕ) : ℚ :=
  (sel.enum.map fun p => cost p.1 p.2).sum

/-- First minimiser of `f` in a list. -/
def pickMinBy (f : List ℕ → ℚ) : List (List ℕ) → Option (List ℕ)
  | [] => none
  | x :: xs => some (xs.foldl (fun b y => if f y < f b then y else b) x)

/-- `scipy.optimize.linear_sum_assignment` on an `nA × nB` cost matrix:
an optimal one-to-one assignment of `min nA nB` (row, column) pairs,
found here by brute force over all injective assignments (the
documented contract of the SciPy routine; ties may be broken
differently, which no property in this development depends on). -/
def lsa (cost : ℕ → ℕ → ℚ) (nA nB : ℕ) : List (ℕ × ℕ) :=
  if nA ≤ nB then
    match pickMinBy (totalCost cost) (selections nA (List.range nB)) with
    | some sel => (List.range nA).zip sel
    | none => []
  else
    match pickMinBy (totalCost fun j i => cost i j) (selections nB (List.range nA)) with
    | some sel => ((List.range nB).zip sel).map fun p => (p.2, p.1)
    | none => []

/-! ### `_assign_segment` -/

/-- One row of the matched-pair table built by `_assign_segment`. -/
structure MatchedPair where
  feature_id_a : String
  feature_id_b : String
  index_a : ℕ
  index_b : ℕ
  distance_a : ℚ
  corrected_distance_b : ℚ
  distance_b_raw : ℚ
  delta_dist_ft : ℚ
  clock_deg_a : Option ℚ
  clock_deg_b : Option ℚ
  delta_clock_deg : Option ℚ
  feature_type : String
  orientation : Option String
  depth_pct_a : Option ℚ
  depth_pct_b : Option ℚ
  length_a : Option ℚ
  length_b : Option ℚ
  width_a : Option ℚ
  width_b : Option ℚ
  wall_thickness_a : Option ℚ
  wall_thickness_b : Option ℚ
  cost : ℚ
  segment_id : ℕ
  status : String
  deriving Repr, DecidableEq

/-- The matched-pair record of `_assign_segment` for one accepted
`(i, j)` assignment (deltas rounded as in the source; `UNCERTAIN` when
the unrounded cost exceeds `cost_thresh`). -/
def mkMatchedPair (ia : ℕ) (ra : FeatureRow) (ib : ℕ) (rb : FeatureRow)
    (c : ℚ) (segId : ℕ) (cost_thresh : ℚ) : MatchedPair :=
  { feature_id_a := ra.feature_id
    feature_id_b := rb.feature_id
    index_a := ia
    index_b := ib
    distance_a := ra.distance
    corrected_distance_b := effDistB rb
    distance_b_raw := rb.distance
    delta_dist_ft := roundTo 4 |ra.distance - effDistB rb|
    clock_deg_a := ra.clock_deg
    clock_deg_b := rb.clock_deg
    delta_clock_deg := (clock_distance ra.clock_deg rb.clock_deg).map (roundTo 2)
    feature_type := ra.feature_type_norm
    orientation := ra.orientation
    depth_pct_a := ra.depth_percent
    depth_pct_b := rb.depth_percent
    length_a := ra.length
    length_b := rb.length
    width_a := ra.width
    width_b := rb.width
    wall_thickness_a := ra.wall_thickness
    wall_thickness_b := rb.wall_thickness
    cost := roundTo 4 c
    segment_id := segId
    status := if cost_thresh < c then "UNCERTAIN" else "MATCHED" }

/-- The gated candidate list of `_assign_segment`: for every in-range
`(i, j)`, apply the fast distance gate (`dist_tol`), the fast clock
gate (`clock_tol`, only when both clocks are known) and
`compute_pair_cost`'s hard filters; survivors carry their cost. -/
def segCandidates (segA segB : List (ℕ × FeatureRow))
    (dist_tol clock_tol : ℚ) (w : Weights) : List (ℕ × ℕ × ℚ) :=
  (List.range segA.length).bind fun i =>
    (List.range segB.length).filterMap fun j =>
      match segA.get? i, segB.get? j with
      | some pa, some pb =>
        if dist_tol < |pa.2.distance - effDistB pb.2| then none
        else
          match clock_distance pa.2.clock_deg pb.2.clock_deg with
          | some cd =>
            if clock_tol < cd then none
            else (compute_pair_cost pa.2 pb.2 w).map fun c => (i, j, c)
          | none => (compute_pair_cost pa.2 pb.2 w).map fun c => (i, j, c)
      | _, _ => none

/-- The cost matrix of `_assign_segment`: candidate cost where one
exists, the `BIG_COST` sentinel everywhere else. -/
def cellCost (cands : List (ℕ × ℕ × ℚ)) (i j : ℕ) : ℚ :=
  ((cands.find? fun t => t.1 == i && t.2.1 == j).map fun t => t.2.2).getD BIG_COST

/-- `_assign_segment` from `src/matching.py`: Hungarian matching on one
segment.  Returns `(matched_pairs, unmatched_a_indices,
unmatched_b_indices)`, indices being the originating DataFrame indices
carried in the `(index, row)` pairs. -/
def assignSegment (segA segB : List (ℕ × FeatureRow))
    (dist_tol clock_tol cost_thresh : ℚ) (w : Weights) (segId : ℕ) :
    List MatchedPair × List ℕ × List ℕ :=
  if segA.length = 0 ∨ segB.length = 0 then
    ([], segA.map Prod.fst, segB.map Prod.fst)
  else
    let cands := segCandidates segA segB dist_tol clock_tol w
    if cands.isEmpty then ([], segA.map Prod.fst, segB.map Prod.fst)
    else
      let kept := (lsa (cellCost cands) segA.length segB.length).filter
        fun p => decide (cellCost cands p.1 p.2 < BIG_COST)
      let matched := kept.filterMap fun p =>
        match segA.get? p.1, segB.get? p.2 with
        | some pa, some pb =>
          some (mkMatchedPair pa.1 pa.2 pb.1 pb.2 (cellCost cands p.1 p.2)
            segId cost_thresh)
        | _, _ => none
      let unA := ((List.range segA.length).filter fun i =>
        !((kept.map Prod.fst).contains i)).filterMap fun i =>
          (segA.get? i).map Prod.fst
      let unB := ((List.range segB.length).filter fun j =>
        !((kept.map Prod.snd).contains j)).filterMap fun j =>
          (segB.get? j).map Prod.fst
      (matched, unA, unB)

/-! ### `match_anomalies` -/

/-- Lower bound of segment `k` (`-inf` for the first segment). -/
def segLo (bs : List ℚ) (k : ℕ) : Option ℚ :=
  if k = 0 then none else bs.get? (k - 1)

/-- Upper bound of segment `k` (`+inf` for the last). -/
def segHi (bs : List ℚ) (k : ℕ) : Option ℚ := bs.get? k

/-- Membership of a distance in the half-open segment
`(boundaries[k], boundaries[k+1]]` of `match_anomalies`. -/
def inSegment (bs : List ℚ) (k : ℕ) (x : ℚ) : Bool :=
  (match segLo bs k with
   | none => true
   | some lo => decide (lo < x))
  && (match segHi bs k with
      | none => true
      | some hi => decide (x ≤ hi))

/-- `_get_anomalies`: drop control-point rows, keeping each remaining
row with its original DataFrame index. -/
def anomaliesOf (df : List FeatureRow) : List (ℕ × FeatureRow) :=
  df.enum.filter fun p => !(CONTROL_POINT_TYPES.contains p.2.feature_type_norm)

/-- The per-segment body of the `match_anomalies` loop: filter both
anomaly lists into segment `k` (Run A by raw distance, Run B by
corrected distance) and solve the segment, skipping segments empty on
both sides. -/
def segmentResult (anomA anomB : List (ℕ × FeatureRow)) (bs : List ℚ)
    (dist_tol clock_tol cost_thresh : ℚ) (w : Weights) (k : ℕ) :
    List MatchedPair × List ℕ × List ℕ :=
  let segA := anomA.filter fun p => inSegment bs k p.2.distance
  let segB := anomB.filter fun p => inSegment bs k (effDistB p.2)
  if segA.isEmpty && segB.isEmpty then ([], [], [])
  else assignSegment segA segB dist_tol clock_tol cost_thresh w k

/-- `match_anomalies` from `src/matching.py`: segment the pipeline by
the matched control points' Run-A distances, solve every segment, and
concatenate matched pairs, unmatched Run-A indices (the MISSING rows)
and unmatched Run-B indices (the NEW rows). -/
def match_anomalies (df_a df_b : List FeatureRow) (matched_cp : List CPPair)
    (dist_tol clock_tol cost_thresh : ℚ) (w : Weights) :
    List MatchedPair × List ℕ × List ℕ :=
  let anomA := anomaliesOf df_a
  let anomB := anomaliesOf df_b
  let bs := (cpSort matched_cp).map CPPair.distance_a
  let results := (List.range (bs.length + 1)).map
    (segmentResult anomA anomB bs dist_tol clock_tol cost_thresh w)
  ((results.map fun r => r.1).flatten,
   (results.map fun r => r.2.1).flatten,
   (results.map fun r => r.2.2).flatten)

/-- `missing_df`: the Run-A rows at the unmatched indices, with the
`status` marker `"MISSING"`. -/
def missingRows (df_a : List FeatureRow) (idxs : List ℕ) :
    List (ℕ × FeatureRow × String) :=
  idxs.filterMap fun i => (df_a.get? i).map fun r => (i, r, "MISSING")

/-- `new_df`: the Run-B rows at the unmatched indices, with the
`status` marker `"NEW"`. -/
def newRows (df_b : List FeatureRow) (idxs : List ℕ) :
    List (ℕ × FeatureRow × String) :=
  idxs.filterMap fun i => (df_b.get? i).map fun r => (i, r, "NEW")

/-! ### Claim C7: cost non-negativity and distance monotonicity -/

theorem fmod_nonneg (a b : ℚ) (hb : 0 < b) : 0 ≤ fmod a b := by
  unfold fmod
  have h := Int.floor_le (a / b)
  have h2 : b * (⌊a / b⌋ : ℚ) ≤ b * (a / b) := by
    exact mul_le_mul_of_nonneg_left h hb.le
  rw [mul_div_cancel₀ a (ne_of_gt hb)] at h2
  linarith

theorem fmod_lt (a b : ℚ) (hb : 0 < b) : fmod a b < b := by
  unfold fmod
  have h := Int.lt_floor_add_one (a / b)
  have h2 : b * (a / b) < b * ((⌊a / b⌋ : ℚ) + 1) := by
    exact mul_lt_mul_of_pos_left h hb
  rw [mul_div_cancel₀ a (ne_of_gt hb)] at h2
  nlinarith

theorem clock_distance_nonneg (a b : Option ℚ) :
    0 ≤ (clock_distance a b).getD 0 := by
  match a, b with
  | none, _ => cases b <;> simp [clock_distance]
  | some x, none => simp [clock_distance]
  | some x, some y =>
    simp only [clock_distance, Option.getD_some]
    have h1 := fmod_nonneg |x - y| 360 (by norm_num)
    have h2 := fmod_lt |x - y| 360 (by norm_num)
    rw [le_min_iff]
    constructor <;> linarith

theorem optAbsDiff_nonneg (a b : Option ℚ) : 0 ≤ optAbsDiff a b := by
  match a, b with
  | some x, some y => exact abs_nonneg _
  | some x, none => exact le_refl 0
  | none, _ => cases b <;> exact le_refl 0

/-- Whenever `compute_pair_cost` passes the hard gates, the returned
cost is the weighted sum of the soft components. -/
theorem compute_pair_cost_eq_some {row_a row_b : FeatureRow} {w : Weights} {c : ℚ}
    (h : compute_pair_cost row_a row_b w = some c) :
    c = w.w_dist * |row_a.distance - effDistB row_b|
      + w.w_clock * ((clock_distance row_a.clock_deg row_b.clock_deg).getD 0)
      + w.w_depth * optAbsDiff row_a.depth_percent row_b.depth_percent
      + w.w_size * (optAbsDiff row_a.length row_b.length
          + optAbsDiff row_a.width row_b.width)
      + (if row_a.feature_type_norm == row_b.feature_type_norm then (0:ℚ)
         else w.type_penalty) := by
  unfold compute_pair_cost at h
  split at h
  · cases h
  split at h
  · cases h
  rw [Option.some.injEq] at h
  exact h.symm

/-- C7: for every candidate pair that passes the hard gates,
`compute_pair_cost` with the default weights returns a non-negative
cost, and the cost strictly increases in the corrected-distance
difference when every other attribute of the Run-B row is held fixed. -/
theorem pair_cost_nonneg_and_monotone (row_a row_b : FeatureRow) (d2 : ℚ) :
    (∀ c, compute_pair_cost row_a row_b DEFAULT_WEIGHTS = some c → 0 ≤ c) ∧
    (∀ c c2, compute_pair_cost row_a row_b DEFAULT_WEIGHTS = some c →
      compute_pair_cost row_a { row_b with corrected_distance := some d2 }
        DEFAULT_WEIGHTS = some c2 →
      |row_a.distance - effDistB row_b| < |row_a.distance - d2| → c < c2) := by
  have htp : ∀ ta tb : String, (0:ℚ) ≤ (if ta == tb then (0:ℚ)
      else DEFAULT_WEIGHTS.type_penalty) := by
    intro ta tb
    split
    · exact le_refl 0
    · norm_num [DEFAULT_WEIGHTS]
  constructor
  · intro c hc
    have e1 := compute_pair_cost_eq_some hc
    have h1 : (0:ℚ) ≤ |row_a.distance - effDistB row_b| := abs_nonneg _
    have h2 := clock_distance_nonneg row_a.clock_deg row_b.clock_deg
    have h3 := optAbsDiff_nonneg row_a.depth_percent row_b.depth_percent
    have h4 := optAbsDiff_nonneg row_a.length row_b.length
    have h5 := optAbsDiff_nonneg row_a.width row_b.width
    have h6 := htp row_a.feature_type_norm row_b.feature_type_norm
    simp only [DEFAULT_WEIGHTS] at e1 h6
    linarith [e1.ge, e1.le]
  · intro c c2 hc hc2 hfar
    have e1 := compute_pair_cost_eq_some hc
    have e2 := compute_pair_cost_eq_some hc2
    have heq3 : effDistB { row_b with corrected_distance := some d2 } = d2 := rfl
    rw [heq3,
      show ({ row_b with corrected_distance := some d2 } :
        FeatureRow).clock_deg = row_b.clock_deg from rfl,
      show ({ row_b with corrected_distance := some d2 } :
        FeatureRow).depth_percent = row_b.depth_percent from rfl,
      show ({ row_b with corrected_distance := some d2 } :
        FeatureRow).length = row_b.length from rfl,
      show ({ row_b with corrected_distance := some d2 } :
        FeatureRow).width = row_b.width from rfl,
      show ({ row_b with corrected_distance := some d2 } :
        FeatureRow).feature_type_norm = row_b.feature_type_norm from rfl] at e2
    simp only [DEFAULT_WEIGHTS] at e1 e2
    linarith [e1.le, e1.ge, e2.le, e2.ge]

/-- Concrete Run-A row used by the C7 witness. -/
def rowAEx : FeatureRow :=
  { feature_id := "A1", distance := 100, clock_deg := some 90,
    feature_type_norm := "metal_loss", orientation := some "OD",
    depth_percent := some 15 }

/-- Concrete Run-B row used by the C7 witness. -/
def rowBEx : FeatureRow :=
  { feature_id := "B1", distance := 103, corrected_distance := some 101,
    clock_deg := some 90, feature_type_norm := "metal_loss",
    orientation := some "OD", depth_percent := some 18 }

/-- The cost of the concrete gate-passing pair `rowAEx`/`rowBEx`. -/
theorem pair_cost_rowEx :
    compute_pair_cost rowAEx rowBEx DEFAULT_WEIGHTS = some (13/10) := by
  have hclock : clock_distance (some (90:ℚ)) (some 90) = some 0 := by
    simp [clock_distance, fmod]
  unfold compute_pair_cost rowAEx rowBEx
  rw [if_neg (by simp [orientConflict]), if_neg (by simp [types_compatible])]
  simp only [hclock]
  simp [effDistB, optAbsDiff, DEFAULT_WEIGHTS]
  norm_num

/-- Witness for C7 at a concrete gate-passing pair: the cost `13/10` is
non-negative, and moving the corrected distance from 101 to 104 raises
the cost to `43/10`. -/
theorem pair_cost_nonneg_and_monotone_witness :
    (0:ℚ) ≤ 13/10 ∧ (13/10 : ℚ) < 43/10 := by
  have hclock : clock_distance (some (90:ℚ)) (some 90) = some 0 := by
    simp [clock_distance, fmod]
  have hc := pair_cost_rowEx
  have hc2 : compute_pair_cost rowAEx
      { rowBEx with corrected_distance := some 104 } DEFAULT_WEIGHTS
      = some (43/10) := by
    unfold compute_pair_cost rowAEx rowBEx
    rw [if_neg (by simp [orientConflict]), if_neg (by simp [types_compatible])]
    simp only [hclock]
    simp [effDistB, optAbsDiff, DEFAULT_WEIGHTS]
    norm_num
  refine ⟨(pair_cost_nonneg_and_monotone rowAEx rowBEx 104).1 _ hc,
          (pair_cost_nonneg_and_monotone rowAEx rowBEx 104).2 _ _ hc hc2 ?_⟩
  norm_num [effDistB, rowAEx, rowBEx]

/-! ### Claim C2: the matched table is one-to-one -/

theorem selections_spec {n : ℕ} {avail sel : List ℕ}
    (hsel : sel ∈ selections n avail) (hnd : avail.Nodup) :
    sel.length = n ∧ sel.Nodup ∧ ∀ x ∈ sel, x ∈ avail := by
  induction n generalizing avail sel with
  | zero =>
    simp only [selections, List.mem_singleton] at hsel
    subst hsel
    simp
  | succ n ih =>
    simp only [selections, List.mem_bind, List.mem_map] at hsel
    obtain ⟨j, hj, rest, hrest, rfl⟩ := hsel
    obtain ⟨hlen, hndr, hsub⟩ := ih hrest (hnd.erase j)
    refine ⟨by simp [hlen], ?_, ?_⟩
    · rw [List.nodup_cons]
      exact ⟨fun hmem => hnd.not_mem_erase (hsub j hmem), hndr⟩
    · intro x hx
      rcases List.mem_cons.mp hx with rfl | hx2
      · exact hj
      · exact List.mem_of_mem_erase (hsub x hx2)

theorem foldl_pick_mem (f : List ℕ → ℚ) (xs : List (List ℕ)) (x : List ℕ) :
    xs.foldl (fun b y => if f y < f b then y else b) x ∈ x :: xs := by
  induction xs generalizing x with
  | nil => exact List.mem_singleton.mpr rfl
  | cons y ys ih =>
    simp only [List.foldl_cons]
    have h := ih (if f y < f x then y else x)
    rcases List.mem_cons.mp h with heq | hmem
    · rw [heq]
      split
      · exact List.mem_cons_of_mem _ (List.mem_cons_self _ _)
      · exact List.mem_cons_self _ _
    · exact List.mem_cons_of_mem _ (List.mem_cons_of_mem _ hmem)

theorem pickMinBy_mem {f : List ℕ → ℚ} {l : List (List ℕ)} {r : List ℕ}
    (h : pickMinBy f l = some r) : r ∈ l := by
  match l with
  | [] => cases h
  | x :: xs =>
    simp only [pickMinBy, Option.some.injEq] at h
    subst h
    exact foldl_pick_mem f xs x

theorem lsa_spec (cost : ℕ → ℕ → ℚ) (nA nB : ℕ) :
    ((lsa cost nA nB).map Prod.fst).Nodup
    ∧ ((lsa cost nA nB).map Prod.snd).Nodup
    ∧ ∀ p ∈ lsa cost nA nB, p.1 < nA ∧ p.2 < nB := by
  unfold lsa
  split
  case isTrue hAB =>
    cases hpick : pickMinBy (totalCost cost) (selections nA (List.range nB)) with
    | none => simp
    | some sel =>
      obtain ⟨hlen, hnd, hsub⟩ :=
        selections_spec (pickMinBy_mem hpick) (List.nodup_range nB)
      have hlr : (List.range nA).length ≤ sel.length := by
        rw [hlen, List.length_range]
      have hfst : ((List.range nA).zip sel).map Prod.fst = List.range nA :=
        List.map_fst_zip _ _ hlr
      have hsnd : ((List.range nA).zip sel).map Prod.snd = sel :=
        List.map_snd_zip _ _ (by rw [hlen, List.length_range])
      refine ⟨by rw [hfst]; exact List.nodup_range nA,
              by rw [hsnd]; exact hnd, ?_⟩
      intro p hp
      obtain ⟨h1, h2⟩ := List.of_mem_zip hp
      exact ⟨List.mem_range.mp h1, List.mem_range.mp (hsub _ h2)⟩
  case isFalse hAB =>
    cases hpick : pickMinBy (totalCost fun j i => cost i j)
        (selections nB (List.range nA)) with
    | none => simp
    | some sel =>
      obtain ⟨hlen, hnd, hsub⟩ :=
        selections_spec (pickMinBy_mem hpick) (List.nodup_range nA)
      have hlr : (List.range nB).length ≤ sel.length := by
        rw [hlen, List.length_range]
      have hfst : ((List.range nB).zip sel).map Prod.fst = List.range nB :=
        List.map_fst_zip _ _ hlr
      have hsnd : ((List.range nB).zip sel).map Prod.snd = sel :=
        List.map_snd_zip _ _ (by rw [hlen, List.length_range])
      have hswapfst : ((((List.range nB).zip sel).map fun p => (p.2, p.1)).map
          Prod.fst) = sel := by
        rw [List.map_map]
        exact hsnd
      have hswapsnd : ((((List.range nB).zip sel).map fun p => (p.2, p.1)).map
          Prod.snd) = List.range nB := by
        rw [List.map_map]
        exact hfst
      refine ⟨by rw [hswapfst]; exact hnd,
              by rw [hswapsnd]; exact List.nodup_range nB, ?_⟩
      intro p hp
      rw [List.mem_map] at hp
      obtain ⟨q, hq, rfl⟩ := hp
      obtain ⟨h1, h2⟩ := List.of_mem_zip hq
      exact ⟨List.mem_range.mp (hsub _ h2), List.mem_range.mp h1⟩

/-- Default `(index, row)` pair for positional access. -/
def dummyIdxRow : ℕ × FeatureRow := (0, {})

theorem get_fst_inj {l : List (ℕ × FeatureRow)} (h : (l.map Prod.fst).Nodup)
    {i j : ℕ} (hi : i < l.length) (hj : j < l.length)
    (heq : (l.get ⟨i, hi⟩).1 = (l.get ⟨j, hj⟩).1) : i = j := by
  have hinj := List.nodup_iff_injective_get.mp h
  have hlen : (l.map Prod.fst).length = l.length := List.length_map _ _
  have e1 : (l.map Prod.fst).get ⟨i, by omega⟩ = (l.get ⟨i, hi⟩).1 := by
    simp
  have e2 : (l.map Prod.fst).get ⟨j, by omega⟩ = (l.get ⟨j, hj⟩).1 := by
    simp
  have h3 : Function.Injective (l.map Prod.fst).get := hinj
  have := h3 (show (l.map Prod.fst).get ⟨i, by omega⟩
      = (l.map Prod.fst).get ⟨j, by omega⟩ by rw [e1, e2, heq])
  simpa using this

theorem matched_index_a_eq (segA segB : List (ℕ × FeatureRow))
    (cands : List (ℕ × ℕ × ℚ)) (cth : ℚ) (sid : ℕ) :
    ∀ ks : List (ℕ × ℕ), (∀ p ∈ ks, p.1 < segA.length ∧ p.2 < segB.length) →
      ((ks.filterMap (fun p =>
          match segA.get? p.1, segB.get? p.2 with
          | some pa, some pb => some (mkMatchedPair pa.1 pa.2 pb.1 pb.2
              (cellCost cands p.1 p.2) sid cth)
          | _, _ => none)).map MatchedPair.index_a)
        = ks.map fun p => (segA.getD p.1 dummyIdxRow).1 := by
  intro ks hb
  induction ks with
  | nil => rfl
  | cons p ps ih =>
    obtain ⟨hp1, hp2⟩ := hb p (List.mem_cons_self _ _)
    have hpa : segA.get? p.1 = some (segA.get ⟨p.1, hp1⟩) := List.get?_eq_get hp1
    have hpb : segB.get? p.2 = some (segB.get ⟨p.2, hp2⟩) := List.get?_eq_get hp2
    rw [List.filterMap_cons]
    rw [show (match segA.get? p.1, segB.get? p.2 with
        | some pa, some pb => some (mkMatchedPair pa.1 pa.2 pb.1 pb.2
            (cellCost cands p.1 p.2) sid cth)
        | _, _ => none)
      = some (mkMatchedPair (segA.get ⟨p.1, hp1⟩).1 (segA.get ⟨p.1, hp1⟩).2
          (segB.get ⟨p.2, hp2⟩).1 (segB.get ⟨p.2, hp2⟩).2
          (cellCost cands p.1 p.2) sid cth) from by rw [hpa, hpb]]
    rw [List.map_cons, List.map_cons,
      ih fun q hq => hb q (List.mem_cons_of_mem _ hq)]
    congr 1
    rw [List.getD_eq_get segA dummyIdxRow hp1]
    rfl

theorem matched_index_b_eq (segA segB : List (ℕ × FeatureRow))
    (cands : List (ℕ × ℕ × ℚ)) (cth : ℚ) (sid : ℕ) :
    ∀ ks : List (ℕ × ℕ), (∀ p ∈ ks, p.1 < segA.length ∧ p.2 < segB.length) →
      ((ks.filterMap (fun p =>
          match segA.get? p.1, segB.get? p.2 with
          | some pa, some pb => some (mkMatchedPair pa.1 pa.2 pb.1 pb.2
              (cellCost cands p.1 p.2) sid cth)
          | _, _ => none)).map MatchedPair.index_b)
        = ks.map fun p => (segB.getD p.2 dummyIdxRow).1 := by
  intro ks hb
  induction ks with
  | nil => rfl
  | cons p ps ih =>
    obtain ⟨hp1, hp2⟩ := hb p (List.mem_cons_self _ _)
    have hpa : segA.get? p.1 = some (segA.get ⟨p.1, hp1⟩) := List.get?_eq_get hp1
    have hpb : segB.get? p.2 = some (segB.get ⟨p.2, hp2⟩) := List.get?_eq_get hp2
    rw [List.filterMap_cons]
    rw [show (match segA.get? p.1, segB.get? p.2 with
        | some pa, some pb => some (mkMatchedPair pa.1 pa.2 pb.1 pb.2
            (cellCost cands p.1 p.2) sid cth)
        | _, _ => none)
      = some (mkMatchedPair (segA.get ⟨p.1, hp1⟩).1 (segA.get ⟨p.1, hp1⟩).2
          (segB.get ⟨p.2, hp2⟩).1 (segB.get ⟨p.2, hp2⟩).2
          (cellCost cands p.1 p.2) sid cth) from by rw [hpa, hpb]]
    rw [List.map_cons, List.map_cons,
      ih fun q hq => hb q (List.mem_cons_of_mem _ hq)]
    congr 1
    rw [List.getD_eq_get segB dummyIdxRow hp2]
    rfl

/-- Composed-map Nodup: mapping in-range indices through a
Nodup-indexed segment list preserves Nodup. -/
theorem nodup_map_getD_fst {seg : List (ℕ × FeatureRow)} {idxs : List ℕ}
    (hseg : (seg.map Prod.fst).Nodup) (hnd : idxs.Nodup)
    (hbound : ∀ i ∈ idxs, i < seg.length) :
    (idxs.map fun i => (seg.getD i dummyIdxRow).1).Nodup := by
  apply List.Nodup.map_on _ hnd
  intro x hx y hy hxy
  have hxl := hbound x hx
  have hyl := hbound y hy
  rw [List.getD_eq_get seg dummyIdxRow hxl,
    List.getD_eq_get seg dummyIdxRow hyl] at hxy
  exact get_fst_inj hseg hxl hyl hxy

theorem assignSegment_spec (segA segB : List (ℕ × FeatureRow))
    (dt ct cth : ℚ) (w : Weights) (sid : ℕ)
    (hA : (segA.map Prod.fst).Nodup) (hB : (segB.map Prod.fst).Nodup) :
    ((assignSegment segA segB dt ct cth w sid).1.map MatchedPair.index_a).Nodup
    ∧ ((assignSegment segA segB dt ct cth w sid).1.map MatchedPair.index_b).Nodup
    ∧ (∀ q ∈ (assignSegment segA segB dt ct cth w sid).1.map MatchedPair.index_a,
        q ∈ segA.map Prod.fst)
    ∧ (∀ q ∈ (assignSegment segA segB dt ct cth w sid).1.map MatchedPair.index_b,
        q ∈ segB.map Prod.fst) := by
  unfold assignSegment
  split
  · simp
  dsimp only
  split
  · simp
  obtain ⟨l1, l2, l3⟩ := lsa_spec (cellCost (segCandidates segA segB dt ct w))
    segA.length segB.length
  have hsub : ((lsa (cellCost (segCandidates segA segB dt ct w))
      segA.length segB.length).filter
      (fun p => decide (cellCost (segCandidates segA segB dt ct w) p.1 p.2
        < BIG_COST))).Sublist
      (lsa (cellCost (segCandidates segA segB dt ct w))
        segA.length segB.length) :=
    List.filter_sublist _
  have hkb : ∀ p ∈ (lsa (cellCost (segCandidates segA segB dt ct w))
      segA.length segB.length).filter
      (fun p => decide (cellCost (segCandidates segA segB dt ct w) p.1 p.2
        < BIG_COST)),
      p.1 < segA.length ∧ p.2 < segB.length :=
    fun p hp => l3 p (hsub.subset hp)
  have hkf := List.Nodup.sublist (hsub.map Prod.fst) l1
  have hks := List.Nodup.sublist (hsub.map Prod.snd) l2
  rw [matched_index_a_eq segA segB (segCandidates segA segB dt ct w) cth sid _ hkb,
    matched_index_b_eq segA segB (segCandidates segA segB dt ct w) cth sid _ hkb]
  have hcompA : (((lsa (cellCost (segCandidates segA segB dt ct w))
        segA.length segB.length).filter
        (fun p => decide (cellCost (segCandidates segA segB dt ct w) p.1 p.2
          < BIG_COST))).map fun p => (segA.getD p.1 dummyIdxRow).1)
      = (((lsa (cellCost (segCandidates segA segB dt ct w))
        segA.length segB.length).filter
        (fun p => decide (cellCost (segCandidates segA segB dt ct w) p.1 p.2
          < BIG_COST))).map Prod.fst).map
        fun i => (segA.getD i dummyIdxRow).1 := by
    rw [List.map_map]
    rfl
  have hcompB : (((lsa (cellCost (segCandidates segA segB dt ct w))
        segA.length segB.length).filter
        (fun p => decide (cellCost (segCandidates segA segB dt ct w) p.1 p.2
          < BIG_COST))).map fun p => (segB.getD p.2 dummyIdxRow).1)
      = (((lsa (cellCost (segCandidates segA segB dt ct w))
        segA.length segB.length).filter
        (fun p => decide (cellCost (segCandidates segA segB dt ct w) p.1 p.2
          < BIG_COST))).map Prod.snd).map
        fun i => (segB.getD i dummyIdxRow).1 := by
    rw [List.map_map]
    rfl
  rw [hcompA, hcompB]
  refine ⟨?_, ?_, ?_, ?_⟩
  · apply nodup_map_getD_fst hA hkf
    intro i hi
    rw [List.mem_map] at hi
    obtain ⟨p, hp, rfl⟩ := hi
    exact (hkb p hp).1
  · apply nodup_map_getD_fst hB hks
    intro i hi
    rw [List.mem_map] at hi
    obtain ⟨p, hp, rfl⟩ := hi
    exact (hkb p hp).2
  · intro q hq
    rw [List.mem_map] at hq
    obtain ⟨i, hi, rfl⟩ := hq
    rw [List.mem_map] at hi
    obtain ⟨p, hp, rfl⟩ := hi
    rw [List.getD_eq_get segA dummyIdxRow (hkb p hp).1]
    exact List.mem_map.mpr ⟨_, List.get_mem _ _ _, rfl⟩
  · intro q hq
    rw [List.mem_map] at hq
    obtain ⟨i, hi, rfl⟩ := hq
    rw [List.mem_map] at hi
    obtain ⟨p, hp, rfl⟩ := hi
    rw [List.getD_eq_get segB dummyIdxRow (hkb p hp).2]
    exact List.mem_map.mpr ⟨_, List.get_mem _ _ _, rfl⟩

theorem anomaliesOf_fst_nodup (df : List FeatureRow) :
    ((anomaliesOf df).map Prod.fst).Nodup := by
  unfold anomaliesOf
  apply List.Nodup.sublist ((List.filter_sublist _).map Prod.fst)
  rw [List.enum_map_fst]
  exact List.nodup_range _

theorem filter_fst_nodup {l : List (ℕ × FeatureRow)}
    (h : (l.map Prod.fst).Nodup) (p : ℕ × FeatureRow → Bool) :
    ((l.filter p).map Prod.fst).Nodup :=
  List.Nodup.sublist ((List.filter_sublist _).map Prod.fst) h

theorem mem_fst_unique {l : List (ℕ × FeatureRow)} (h : (l.map Prod.fst).Nodup)
    {a : ℕ} {b b' : FeatureRow} (h1 : (a, b) ∈ l) (h2 : (a, b') ∈ l) : b = b' := by
  induction l with
  | nil => cases h1
  | cons p ps ih =>
    rw [List.map_cons, List.nodup_cons] at h
    rcases List.mem_cons.mp h1 with e1 | m1
    · rcases List.mem_cons.mp h2 with e2 | m2
      · have := e1.trans e2.symm
        rw [Prod.mk.injEq] at this
        exact this.2
      · exfalso
        apply h.1
        rw [← e1]
        exact List.mem_map.mpr ⟨(a, b'), m2, rfl⟩
    · rcases List.mem_cons.mp h2 with e2 | m2
      · exfalso
        apply h.1
        rw [← e2]
        exact List.mem_map.mpr ⟨(a, b), m1, rfl⟩
      · exact ih h.2 m1 m2

theorem inSegment_upper {bs : List ℚ} {k : ℕ} {x : ℚ}
    (h : inSegment bs k x = true) {hi : ℚ} (hhi : segHi bs k = some hi) :
    x ≤ hi := by
  unfold inSegment at h
  rw [Bool.and_eq_true] at h
  have h2 := h.2
  rw [hhi] at h2
  exact of_decide_eq_true h2

theorem inSegment_lower {bs : List ℚ} {k : ℕ} {x : ℚ}
    (h : inSegment bs k x = true) {lo : ℚ} (hlo : segLo bs k = some lo) :
    lo < x := by
  unfold inSegment at h
  rw [Bool.and_eq_true] at h
  have h1 := h.1
  rw [hlo] at h1
  exact of_decide_eq_true h1

theorem inSegment_disjoint {bs : List ℚ} (hs : bs.Sorted (· ≤ ·))
    {k k' : ℕ} (hkk : k < k') (hk' : k' ≤ bs.length) {x : ℚ}
    (h1 : inSegment bs k x = true) (h2 : inSegment bs k' x = true) : False := by
  have hk : k < bs.length := by omega
  have hk1 : k' - 1 < bs.length := by omega
  have hxk : x ≤ bs.get ⟨k, hk⟩ :=
    inSegment_upper h1 (by unfold segHi; exact List.get?_eq_get hk)
  have hlox : bs.get ⟨k' - 1, hk1⟩ < x := by
    refine inSegment_lower h2 ?_
    unfold segLo
    rw [if_neg (by omega)]
    exact List.get?_eq_get hk1
  have hmono : bs.get ⟨k, hk⟩ ≤ bs.get ⟨k' - 1, hk1⟩ := by
    rcases Nat.lt_or_ge k (k' - 1) with hlt | hge
    · exact List.pairwise_iff_get.mp hs ⟨k, hk⟩ ⟨k' - 1, hk1⟩ (Fin.mk_lt_mk.mpr hlt)
    · have : k = k' - 1 := by omega
      subst this
      exact le_refl _
  linarith

theorem bs_sorted (cps : List CPPair) :
    ((cpSort cps).map CPPair.distance_a).Sorted (· ≤ ·) :=
  List.pairwise_map.mpr (cpSort_sorted cps)

/-- Per-segment half of C2: within one segment solve, the matched
Run-A indices are distinct and each comes from an anomaly lying in
segment `k`. -/
theorem segmentResult_index_a_spec (anomA anomB : List (ℕ × FeatureRow))
    (bs : List ℚ) (dt ct cth : ℚ) (w : Weights) (k : ℕ)
    (hA : (anomA.map Prod.fst).Nodup) (hB : (anomB.map Prod.fst).Nodup) :
    (((segmentResult anomA anomB bs dt ct cth w k).1.map
        MatchedPair.index_a).Nodup)
    ∧ ∀ q ∈ (segmentResult anomA anomB bs dt ct cth w k).1.map
        MatchedPair.index_a,
        ∃ r, (q, r) ∈ anomA ∧ inSegment bs k r.distance = true := by
  unfold segmentResult
  dsimp only
  split
  · simp
  · obtain ⟨n1, _, m1, _⟩ := assignSegment_spec _ _ dt ct cth w k
      (filter_fst_nodup hA _) (filter_fst_nodup hB _)
    refine ⟨n1, ?_⟩
    intro q hq
    have hmem := m1 q hq
    rw [List.mem_map] at hmem
    obtain ⟨pr, hpr, rfl⟩ := hmem
    rw [List.mem_filter] at hpr
    exact ⟨pr.2, by simpa using hpr.1, hpr.2⟩

/-- Per-segment half of C2 for the Run-B side. -/
theorem segmentResult_index_b_spec (anomA anomB : List (ℕ × FeatureRow))
    (bs : List ℚ) (dt ct cth : ℚ) (w : Weights) (k : ℕ)
    (hA : (anomA.map Prod.fst).Nodup) (hB : (anomB.map Prod.fst).Nodup) :
    (((segmentResult anomA anomB bs dt ct cth w k).1.map
        MatchedPair.index_b).Nodup)
    ∧ ∀ q ∈ (segmentResult anomA anomB bs dt ct cth w k).1.map
        MatchedPair.index_b,
        ∃ r, (q, r) ∈ anomB ∧ inSegment bs k (effDistB r) = true := by
  unfold segmentResult
  dsimp only
  split
  · simp
  · obtain ⟨_, n2, _, m2⟩ := assignSegment_spec _ _ dt ct cth w k
      (filter_fst_nodup hA _) (filter_fst_nodup hB _)
    refine ⟨n2, ?_⟩
    intro q hq
    have hmem := m2 q hq
    rw [List.mem_map] at hmem
    obtain ⟨pr, hpr, rfl⟩ := hmem
    rw [List.mem_filter] at hpr
    exact ⟨pr.2, by simpa using hpr.1, hpr.2⟩

theorem get_map_range {α : Type _} (F : ℕ → α) (n : ℕ)
    (m : Fin ((List.map F (List.range n)).length)) :
    (List.map F (List.range n)).get m = F m.val := by
  have hm : (m : ℕ) < n := by simpa using m.isLt
  simp

/-- C2: in the output of `match_anomalies`, the matched-pair table is
one-to-one: no Run-A feature index and no Run-B feature index appears
in more than one accepted matched pair — within each segment's
assignment and across the whole result (segments partition features by
half-open distance intervals). -/
theorem match_anomalies_one_to_one (df_a df_b : List FeatureRow)
    (matched_cp : List CPPair) (dist_tol clock_tol cost_thresh : ℚ)
    (w : Weights) :
    ((match_anomalies df_a df_b matched_cp dist_tol clock_tol cost_thresh w).1.map
      MatchedPair.index_a).Nodup
    ∧ ((match_anomalies df_a df_b matched_cp dist_tol clock_tol cost_thresh w).1.map
      MatchedPair.index_b).Nodup := by
  unfold match_anomalies
  dsimp only
  have hA := anomaliesOf_fst_nodup df_a
  have hB := anomaliesOf_fst_nodup df_b
  have hrwA : ((List.map (fun r => r.1)
      (List.map (segmentResult (anomaliesOf df_a) (anomaliesOf df_b)
        ((cpSort matched_cp).map CPPair.distance_a)
        dist_tol clock_tol cost_thresh w)
        (List.range (((cpSort matched_cp).map CPPair.distance_a).length + 1)))).flatten.map
      MatchedPair.index_a)
      = (List.map (fun k => ((segmentResult (anomaliesOf df_a) (anomaliesOf df_b)
          ((cpSort matched_cp).map CPPair.distance_a)
          dist_tol clock_tol cost_thresh w k).1.map MatchedPair.index_a))
        (List.range (((cpSort matched_cp).map CPPair.distance_a).length + 1))).flatten := by
    rw [List.map_flatten, List.map_map, List.map_map]
    rfl
  have hrwB : ((List.map (fun r => r.1)
      (List.map (segmentResult (anomaliesOf df_a) (anomaliesOf df_b)
        ((cpSort matched_cp).map CPPair.distance_a)
        dist_tol clock_tol cost_thresh w)
        (List.range (((cpSort matched_cp).map CPPair.distance_a).length + 1)))).flatten.map
      MatchedPair.index_b)
      = (List.map (fun k => ((segmentResult (anomaliesOf df_a) (anomaliesOf df_b)
          ((cpSort matched_cp).map CPPair.distance_a)
          dist_tol clock_tol cost_thresh w k).1.map MatchedPair.index_b))
        (List.range (((cpSort matched_cp).map CPPair.distance_a).length + 1))).flatten := by
    rw [List.map_flatten, List.map_map, List.map_map]
    rfl
  constructor
  · rw [hrwA, List.nodup_flatten]
    constructor
    · intro l hl
      rw [List.mem_map] at hl
      obtain ⟨k, hk, rfl⟩ := hl
      exact (segmentResult_index_a_spec _ _ _ dist_tol clock_tol cost_thresh w k
        hA hB).1
    · rw [List.pairwise_iff_get]
      intro i j hij
      intro q hq1 hq2
      rw [get_map_range] at hq1 hq2
      obtain ⟨r, hrA, hrSeg⟩ := (segmentResult_index_a_spec _ _ _
        dist_tol clock_tol cost_thresh w i hA hB).2 q hq1
      obtain ⟨r2, hrA2, hrSeg2⟩ := (segmentResult_index_a_spec _ _ _
        dist_tol clock_tol cost_thresh w j hA hB).2 q hq2
      have hrr : r = r2 := mem_fst_unique hA hrA hrA2
      subst hrr
      have hjb : (j : ℕ) ≤ ((cpSort matched_cp).map CPPair.distance_a).length := by
        have h2 : (j : ℕ)
            < ((cpSort matched_cp).map CPPair.distance_a).length + 1 := by
          simpa using j.isLt
        omega
      exact inSegment_disjoint (bs_sorted matched_cp) hij hjb hrSeg hrSeg2
  · rw [hrwB, List.nodup_flatten]
    constructor
    · intro l hl
      rw [List.mem_map] at hl
      obtain ⟨k, hk, rfl⟩ := hl
      exact (segmentResult_index_b_spec _ _ _ dist_tol clock_tol cost_thresh w k
        hA hB).1
    · rw [List.pairwise_iff_get]
      intro i j hij
      intro q hq1 hq2
      rw [get_map_range] at hq1 hq2
      obtain ⟨r, hrB, hrSeg⟩ := (segmentResult_index_b_spec _ _ _
        dist_tol clock_tol cost_thresh w i hA hB).2 q hq1
      obtain ⟨r2, hrB2, hrSeg2⟩ := (segmentResult_index_b_spec _ _ _
        dist_tol clock_tol cost_thresh w j hA hB).2 q hq2
      have hrr : r = r2 := mem_fst_unique hB hrB hrB2
      subst hrr
      have hjb : (j : ℕ) ≤ ((cpSort matched_cp).map CPPair.distance_a).length := by
        have h2 : (j : ℕ)
            < ((cpSort matched_cp).map CPPair.distance_a).length + 1 := by
          simpa using j.isLt
        omega
      exact inSegment_disjoint (bs_sorted matched_cp) hij hjb hrSeg hrSeg2

/-! ### Claim C3: accepted pairs satisfy all four hard gates -/

/-- A cost-matrix cell below the sentinel comes from a gated candidate. -/
theorem cellCost_lt_big {cands : List (ℕ × ℕ × ℚ)} {i j : ℕ}
    (h : cellCost cands i j < BIG_COST) :
    ∃ t ∈ cands, t.1 = i ∧ t.2.1 = j ∧ t.2.2 = cellCost cands i j := by
  unfold cellCost at h ⊢
  cases hf : cands.find? fun t => t.1 == i && t.2.1 == j with
  | none =>
    rw [hf] at h
    simp at h
  | some t =>
    have hm := List.mem_of_find?_eq_some hf
    have hp := List.find?_some hf
    rw [Bool.and_eq_true, beq_iff_eq, beq_iff_eq] at hp
    exact ⟨t, hm, hp.1, hp.2, by simp⟩

/-- Every gated candidate passes the fast distance gate, the fast clock
gate and the `compute_pair_cost` hard filters. -/
theorem segCandidates_mem {segA segB : List (ℕ × FeatureRow)}
    {dt ct : ℚ} {w : Weights} {t : ℕ × ℕ × ℚ}
    (h : t ∈ segCandidates segA segB dt ct w) :
    ∃ pa pb, segA.get? t.1 = some pa ∧ segB.get? t.2.1 = some pb ∧
      ¬ (dt < |pa.2.distance - effDistB pb.2|) ∧
      (∀ cd, clock_distance pa.2.clock_deg pb.2.clock_deg = some cd →
        ¬ (ct < cd)) ∧
      compute_pair_cost pa.2 pb.2 w = some t.2.2 := by
  unfold segCandidates at h
  rw [List.mem_bind] at h
  obtain ⟨i, _, h⟩ := h
  rw [List.mem_filterMap] at h
  obtain ⟨j, _, hfj⟩ := h
  cases hgA : segA.get? i with
  | none =>
    rw [hgA] at hfj
    cases hfj
  | some pa =>
    cases hgB : segB.get? j with
    | none =>
      rw [hgA, hgB] at hfj
      cases hfj
    | some pb =>
      rw [hgA, hgB] at hfj
      dsimp only at hfj
      by_cases hdist : dt < |pa.2.distance - effDistB pb.2|
      · rw [if_pos hdist] at hfj
        cases hfj
      · rw [if_neg hdist] at hfj
        cases hcd : clock_distance pa.2.clock_deg pb.2.clock_deg with
        | some cd =>
          rw [hcd] at hfj
          dsimp only at hfj
          by_cases hct : ct < cd
          · rw [if_pos hct] at hfj
            cases hfj
          · rw [if_neg hct] at hfj
            cases hcpc : compute_pair_cost pa.2 pb.2 w with
            | none =>
              rw [hcpc] at hfj
              cases hfj
            | some c =>
              rw [hcpc] at hfj
              rw [Option.map_some', Option.some.injEq] at hfj
              subst hfj
              refine ⟨pa, pb, hgA, hgB, hdist, ?_, hcpc⟩
              intro cd2 hcd2
              rw [hcd] at hcd2
              rw [Option.some.injEq] at hcd2
              subst hcd2
              exact hct
        | none =>
          rw [hcd] at hfj
          dsimp only at hfj
          cases hcpc : compute_pair_cost pa.2 pb.2 w with
          | none =>
            rw [hcpc] at hfj
            cases hfj
          | some c =>
            rw [hcpc] at hfj
            rw [Option.map_some', Option.some.injEq] at hfj
            subst hfj
            refine ⟨pa, pb, hgA, hgB, hdist, ?_, hcpc⟩
            intro cd2 hcd2
            rw [hcd] at hcd2
            cases hcd2

/-- A computed cost certifies the orientation and type hard gates. -/
theorem compute_pair_cost_gates {ra rb : FeatureRow} {w : Weights} {c : ℚ}
    (h : compute_pair_cost ra rb w = some c) :
    (∀ oa ob, ra.orientation = some oa → rb.orientation = some ob → oa = ob)
    ∧ types_compatible ra.feature_type_norm rb.feature_type_norm = true := by
  unfold compute_pair_cost at h
  split at h
  case isTrue => cases h
  case isFalse hf =>
    split at h
    case isTrue => cases h
    case isFalse hf2 =>
      constructor
      · intro oa ob hoa hob
        unfold orientConflict at hf
        rw [hoa, hob] at hf
        simpa using hf
      · simpa using hf2

/-- Every pair accepted by one segment solve comes from rows of that
segment and passes the distance and clock gates and the
`compute_pair_cost` hard filters. -/
theorem assignSegment_mem_gates {segA segB : List (ℕ × FeatureRow)}
    {dt ct cth : ℚ} {w : Weights} {sid : ℕ} {p : MatchedPair}
    (hp : p ∈ (assignSegment segA segB dt ct cth w sid).1) :
    ∃ ra rb, (p.index_a, ra) ∈ segA ∧ (p.index_b, rb) ∈ segB ∧
      |ra.distance - effDistB rb| ≤ dt ∧
      (∀ cd, clock_distance ra.clock_deg rb.clock_deg = some cd → cd ≤ ct) ∧
      (∃ c, compute_pair_cost ra rb w = some c) := by
  unfold assignSegment at hp
  split at hp
  · simp at hp
  dsimp only at hp
  split at hp
  · simp at hp
  rw [List.mem_filterMap] at hp
  obtain ⟨q, hq, hgq⟩ := hp
  rw [List.mem_filter] at hq
  obtain ⟨hqlsa, hqpred⟩ := hq
  obtain ⟨_, _, l3⟩ := lsa_spec (cellCost (segCandidates segA segB dt ct w))
    segA.length segB.length
  obtain ⟨hq1, hq2⟩ := l3 q hqlsa
  have hgA : segA.get? q.1 = some (segA.get ⟨q.1, hq1⟩) := List.get?_eq_get hq1
  have hgB : segB.get? q.2 = some (segB.get ⟨q.2, hq2⟩) := List.get?_eq_get hq2
  rw [hgA, hgB] at hgq
  rw [Option.some.injEq] at hgq
  have hcell := of_decide_eq_true hqpred
  obtain ⟨t, htc, ht1, ht2, _⟩ := cellCost_lt_big hcell
  obtain ⟨pa, pb, hpa, hpb, hdist, hclock, hcpc⟩ := segCandidates_mem htc
  rw [ht1, hgA, Option.some.injEq] at hpa
  rw [ht2, hgB, Option.some.injEq] at hpb
  subst hpa
  subst hpb
  refine ⟨(segA.get ⟨q.1, hq1⟩).2, (segB.get ⟨q.2, hq2⟩).2, ?_, ?_, ?_, ?_, ?_⟩
  · rw [← hgq]
    unfold mkMatchedPair
    dsimp only
    simp only [Prod.mk.eta]
    exact List.get_mem segA q.1 hq1
  · rw [← hgq]
    unfold mkMatchedPair
    dsimp only
    simp only [Prod.mk.eta]
    exact List.get_mem segB q.2 hq2
  · exact not_lt.mp hdist
  · intro cd hcd
    exact not_lt.mp (hclock cd hcd)
  · exact ⟨t.2.2, hcpc⟩

/-- Run-A `dent` of C3's scenario. -/
def dentRowA : FeatureRow :=
  { feature_id := "A1", distance := 100, clock_deg := some 90,
    feature_type_norm := "dent", orientation := some "OD" }

/-- Run-B `metal_loss` of C3's scenario, at the same distance/clock. -/
def mlRowB : FeatureRow :=
  { feature_id := "B1", distance := 100, clock_deg := some 90,
    feature_type_norm := "metal_loss", orientation := some "OD" }

theorem clock_distance_self_90 : clock_distance (some (90:ℚ)) (some 90) = some 0 := by
  simp [clock_distance, fmod]

theorem pair_cost_dent_ml : compute_pair_cost dentRowA mlRowB DEFAULT_WEIGHTS = none := by
  unfold compute_pair_cost
  rw [if_neg (by simp [orientConflict, dentRowA, mlRowB])]
  rw [if_pos (by rfl)]

theorem pair_cost_none_of_incompatible {ra rb : FeatureRow} {w : Weights}
    (h : types_compatible ra.feature_type_norm rb.feature_type_norm = false) :
    compute_pair_cost ra rb w = none := by
  unfold compute_pair_cost
  split
  · rfl
  · rw [if_pos (by rw [h]; rfl)]

theorem segCandidates_dent_ml :
    segCandidates [(0, dentRowA)] [(0, mlRowB)] 10 15 DEFAULT_WEIGHTS = [] := by
  unfold segCandidates
  norm_num [dentRowA, mlRowB, effDistB, clock_distance, fmod]
  exact pair_cost_none_of_incompatible rfl

theorem assignSegment_dent_ml :
    assignSegment [(0, dentRowA)] [(0, mlRowB)] 10 15 15 DEFAULT_WEIGHTS 0
      = ([], [0], [0]) := by
  unfold assignSegment
  rw [if_neg (by norm_num)]
  dsimp only
  rw [if_pos (by rw [segCandidates_dent_ml]; rfl)]
  rfl

/-- C3: every accepted matched pair of `match_anomalies` satisfies all
four hard gates — distance within `dist_tol`, circular clock difference
within `clock_tol` when both clocks are known, orientations equal when
both are known, and compatible (by default: identical) feature
categories — and, in the concrete scenario, a `dent` and a `metal_loss`
at identical distance and clock are never matched and are reported as
MISSING and NEW respectively. -/
theorem match_anomalies_gates_and_scenario :
    (∀ (df_a df_b : List FeatureRow) (matched_cp : List CPPair)
        (dist_tol clock_tol cost_thresh : ℚ) (w : Weights) (p : MatchedPair),
      p ∈ (match_anomalies df_a df_b matched_cp dist_tol clock_tol
          cost_thresh w).1 →
      ∃ ra rb, df_a.get? p.index_a = some ra ∧ df_b.get? p.index_b = some rb ∧
        |ra.distance - effDistB rb| ≤ dist_tol ∧
        (∀ cd, clock_distance ra.clock_deg rb.clock_deg = some cd →
          cd ≤ clock_tol) ∧
        (∀ oa ob, ra.orientation = some oa → rb.orientation = some ob →
          oa = ob) ∧
        types_compatible ra.feature_type_norm rb.feature_type_norm = true)
    ∧ (match_anomalies [dentRowA] [mlRowB] [] 10 15 15 DEFAULT_WEIGHTS
        = ([], [0], [0])
      ∧ missingRows [dentRowA] [0] = [(0, dentRowA, "MISSING")]
      ∧ newRows [mlRowB] [0] = [(0, mlRowB, "NEW")]
      ∧ types_compatible "dent" "metal_loss" = false) := by
  constructor
  · intro df_a df_b matched_cp dt ct cth w p hp
    unfold match_anomalies at hp
    dsimp only at hp
    rw [List.mem_flatten] at hp
    obtain ⟨l, hl, hpl⟩ := hp
    rw [List.mem_map] at hl
    obtain ⟨res, hres, rfl⟩ := hl
    rw [List.mem_map] at hres
    obtain ⟨k, hk, rfl⟩ := hres
    unfold segmentResult at hpl
    dsimp only at hpl
    split at hpl
    · simp at hpl
    · obtain ⟨ra, rb, hma, hmb, hdist, hclock, c, hcpc⟩ :=
        assignSegment_mem_gates hpl
      rw [List.mem_filter] at hma hmb
      have hga : df_a.get? p.index_a = some ra := by
        have h1 := hma.1
        unfold anomaliesOf at h1
        rw [List.mem_filter] at h1
        exact List.mem_enum_iff_get?.mp h1.1
      have hgb : df_b.get? p.index_b = some rb := by
        have h1 := hmb.1
        unfold anomaliesOf at h1
        rw [List.mem_filter] at h1
        exact List.mem_enum_iff_get?.mp h1.1
      obtain ⟨horient, htypes⟩ := compute_pair_cost_gates hcpc
      exact ⟨ra, rb, hga, hgb, hdist, hclock, horient, htypes⟩
  · refine ⟨?_, rfl, rfl, rfl⟩
    unfold match_anomalies
    dsimp only
    have hbs : (cpSort []).map CPPair.distance_a = [] := rfl
    rw [hbs]
    have hseg : segmentResult (anomaliesOf [dentRowA]) (anomaliesOf [mlRowB])
        [] 10 15 15 DEFAULT_WEIGHTS 0 = ([], [0], [0]) := by
      unfold segmentResult
      dsimp only
      have hfa : (anomaliesOf [dentRowA]).filter
          (fun p => inSegment [] 0 p.2.distance) = [(0, dentRowA)] := rfl
      have hfb : (anomaliesOf [mlRowB]).filter
          (fun p => inSegment [] 0 (effDistB p.2)) = [(0, mlRowB)] := rfl
      rw [hfa, hfb]
      rw [if_neg (by simp)]
      exact assignSegment_dent_ml
    rw [show List.range (List.length ([] : List ℚ) + 1) = [0] from rfl]
    rw [List.map_cons, List.map_nil, hseg]
    rfl


/-- The gated candidate list of the positive matching example: the
single `rowAEx`/`rowBEx` pair survives every gate with cost `13/10`. -/
theorem segCandidates_rowEx :
    segCandidates [(0, rowAEx)] [(0, rowBEx)] 10 15 DEFAULT_WEIGHTS
      = [(0, 0, 13/10)] := by
  have hc := pair_cost_rowEx
  unfold rowAEx rowBEx at hc
  unfold segCandidates
  norm_num [rowAEx, rowBEx, effDistB, clock_distance, fmod, hc,
    List.range_succ, List.filterMap_cons, List.filterMap_nil]

/-- The positive example segment solve: one accepted pair and no
unmatched features on either side. -/
theorem assignSegment_rowEx :
    assignSegment [(0, rowAEx)] [(0, rowBEx)] 10 15 15 DEFAULT_WEIGHTS 0
      = ([mkMatchedPair 0 rowAEx 0 rowBEx (13/10) 0 15], [], []) := by
  have hcell : cellCost [(0, 0, (13/10:ℚ))] 0 0 = 13/10 := rfl
  have hlsa : lsa (cellCost [(0, 0, (13/10:ℚ))]) 1 1 = [(0, 0)] := rfl
  have hkept : (lsa (cellCost [(0, 0, (13/10:ℚ))]) 1 1).filter
      (fun p => decide (cellCost [(0, 0, (13/10:ℚ))] p.1 p.2 < BIG_COST))
      = [(0, 0)] := by
    rw [hlsa, List.filter_cons]
    rw [if_pos]
    · rfl
    · show decide (cellCost [(0, 0, (13/10:ℚ))] 0 0 < BIG_COST) = true
      rw [hcell]
      simp only [decide_eq_true_eq, BIG_COST]
      norm_num
  unfold assignSegment
  rw [if_neg (by simp), segCandidates_rowEx]
  simp only [List.isEmpty_cons, Bool.false_eq_true, if_false,
    List.length_cons, List.length_nil, Nat.zero_add]
  rw [hkept]
  rfl

/-- End-to-end positive matching example: two `metal_loss` anomalies
1 ft apart after correction, equal clock and orientation, are matched
with status `MATCHED` and nothing is reported MISSING or NEW (so the
gate and one-to-one theorems are not vacuous). -/
theorem match_anomalies_positive_example :
    (match_anomalies [rowAEx] [rowBEx] [] 10 15 15 DEFAULT_WEIGHTS).1.map
        (fun p => (p.feature_id_a, p.feature_id_b, p.index_a, p.index_b, p.status))
      = [("A1", "B1", 0, 0, "MATCHED")]
    ∧ (match_anomalies [rowAEx] [rowBEx] [] 10 15 15 DEFAULT_WEIGHTS).2.1 = []
    ∧ (match_anomalies [rowAEx] [rowBEx] [] 10 15 15 DEFAULT_WEIGHTS).2.2 = [] := by
  have hseg : segmentResult (anomaliesOf [rowAEx]) (anomaliesOf [rowBEx])
      [] 10 15 15 DEFAULT_WEIGHTS 0
      = ([mkMatchedPair 0 rowAEx 0 rowBEx (13/10) 0 15], [], []) := by
    unfold segmentResult
    have hfa : (anomaliesOf [rowAEx]).filter
        (fun p => inSegment [] 0 p.2.distance) = [(0, rowAEx)] := rfl
    have hfb : (anomaliesOf [rowBEx]).filter
        (fun p => inSegment [] 0 (effDistB p.2)) = [(0, rowBEx)] := rfl
    rw [hfa, hfb]
    rw [if_neg (by simp)]
    exact assignSegment_rowEx
  have hma : match_anomalies [rowAEx] [rowBEx] [] 10 15 15 DEFAULT_WEIGHTS
      = ([mkMatchedPair 0 rowAEx 0 rowBEx (13/10) 0 15], [], []) := by
    unfold match_anomalies
    dsimp only
    rw [show (cpSort []).map CPPair.distance_a = [] from rfl]
    rw [show List.range (List.length ([] : List ℚ) + 1) = [0] from rfl]
    rw [List.map_cons, List.map_nil, hseg]
    rfl
  rw [hma]
  refine ⟨?_, rfl, rfl⟩
  rw [List.map_cons, List.map_nil]
  have hstatus : (mkMatchedPair 0 rowAEx 0 rowBEx (13/10) 0 15).status
      = "MATCHED" := by
    unfold mkMatchedPair
    rw [if_neg (by norm_num)]
  rw [hstatus]
  rfl

/-! ### `build_tracks` (`src/multirun.py`) -/

/-- One row of a pairwise matched table, as read by `build_tracks`
(`feature_id_a/b`, `depth_pct_a/b`, `distance_a`). -/
structure PairMatch where
  feature_id_a : String
  feature_id_b : String
  depth_pct_a : Option ℚ := none
  depth_pct_b : Option ℚ := none
  distance_a : ℚ := 0
  deriving Repr, DecidableEq

/-- A value stored in a track dict: a feature identifier string or a
numeric column (Python `None` encoded as `Option.none`). -/
inductive TrackVal where
  | fid (s : String)
  | num (q : Option ℚ)
  deriving Repr, DecidableEq

/-- A track: the Python dict `{column_name: value}`, as an
insertion-ordered key/value list. -/
abbrev Track := List (String × TrackVal)

/-- Python dict assignment `track[k] = v`: overwrite in place when the
key exists, append at the end otherwise. -/
def setKey (t : Track) (k : String) (v : TrackVal) : Track :=
  if t.any fun p => p.1 == k then
    t.map fun p => if p.1 == k then (k, v) else p
  else t ++ [(k, v)]

/-- Python `str.startswith`. -/
def strStartsWith (s pre : String) : Bool :=
  pre.data.isPrefixOf s.data

/-- The track seeded from one row of the first pairwise table. -/
def seedTrack (run_ids : List String) (m : PairMatch) : Track :=
  [("feature_id_" ++ run_ids.getD 0 "", .fid m.feature_id_a),
   ("feature_id_" ++ run_ids.getD 1 "", .fid m.feature_id_b),
   ("depth_" ++ run_ids.getD 0 "", .num m.depth_pct_a),
   ("depth_" ++ run_ids.getD 1 "", .num m.depth_pct_b),
   ("distance_" ++ run_ids.getD 0 "", .num (some m.distance_a))]

/-- The track started by a later-pair match whose `from` feature extends
no existing track. -/
def lateSeed (run_a_id run_b_id : String) (m : PairMatch) : Track :=
  [("feature_id_" ++ run_a_id, .fid m.feature_id_a),
   ("feature_id_" ++ run_b_id, .fid m.feature_id_b),
   ("depth_" ++ run_a_id, .num m.depth_pct_a),
   ("depth_" ++ run_b_id, .num m.depth_pct_b)]

/-- The linear scan with `break`: extend the first track whose
`feature_id_<run_a_id>` entry equals the match's `feature_id_a`;
`none` when no track qualifies. -/
def extendFirst (run_a_id run_b_id : String) (m : PairMatch) :
    List (ℕ × Track) → Option (List (ℕ × Track))
  | [] => none
  | (tid, t) :: rest =>
    if t.lookup ("feature_id_" ++ run_a_id) = some (.fid m.feature_id_a) then
      some ((tid,
        setKey (setKey t ("feature_id_" ++ run_b_id) (.fid m.feature_id_b))
          ("depth_" ++ run_b_id) (.num m.depth_pct_b)) :: rest)
    else (extendFirst run_a_id run_b_id m rest).map fun r => (tid, t) :: r

/-- Process one match of a later pair: extend the first qualifying
track, else start a new track with the next fresh id. -/
def stepMatch (run_a_id run_b_id : String) (st : List (ℕ × Track) × ℕ)
    (m : PairMatch) : List (ℕ × Track) × ℕ :=
  match extendFirst run_a_id run_b_id m st.1 with
  | some ts => (ts, st.2)
  | none => (st.1 ++ [(st.2, lateSeed run_a_id run_b_id m)], st.2 + 1)

/-- Process one later pair (`continue` on an empty table). -/
def stepPair (run_ids : List String) (st : List (ℕ × Track) × ℕ)
    (pr : ℕ × List PairMatch) : List (ℕ × Track) × ℕ :=
  if pr.2.isEmpty then st
  else pr.2.foldl
    (stepMatch (run_ids.getD pr.1 "") (run_ids.getD (pr.1 + 1) "")) st

/-- `n_detections`: the number of `feature_id_*` keys holding a
non-`None` value. -/
def n_detections (t : Track) : ℕ :=
  (t.filter fun p => strStartsWith p.1 "feature_id_"
    && !(p.2 == TrackVal.num none)).length

/-- One output record of `build_tracks` (`track_id`, `n_detections`,
and the per-run columns). -/
structure TrackRec where
  track_id : ℕ
  n_detections : ℕ
  fields : Track
  deriving Repr, DecidableEq

/-- `build_tracks` from `src/multirun.py`: returns the empty table when
there are no pairwise tables or the first one is empty; otherwise seeds
one track per first-pair match and chains each later pair's matches. -/
def build_tracks (pair_matches : List (List PairMatch))
    (run_ids : List String) : List TrackRec :=
  match pair_matches with
  | [] => []
  | first :: rest =>
    if first.isEmpty then []
    else
      let st0 := (first.enum.map fun p => (p.1, seedTrack run_ids p.2),
                  first.length)
      let stFin := (rest.enum.map fun p => (p.1 + 1, p.2)).foldl
        (stepPair run_ids) st0
      stFin.1.map fun p => ⟨p.1, n_detections p.2, p.2⟩

/-- The tracking algorithm exactly as the specification words it: seed
one track per pair-0 match, then for every match of every later pair
extend-or-start — with no early return when the first pairwise table is
empty (later matches still start tracks). -/
def buildTracksSpec (pair_matches : List (List PairMatch))
    (run_ids : List String) : List TrackRec :=
  match pair_matches with
  | [] => []
  | first :: rest =>
    let st0 := (first.enum.map fun p => (p.1, seedTrack run_ids p.2),
                first.length)
    let stFin := (rest.enum.map fun p => (p.1 + 1, p.2)).foldl
      (stepPair run_ids) st0
    stFin.1.map fun p => ⟨p.1, n_detections p.2, p.2⟩

/-- The number of runs for which a track records a feature identifier
(the specification's reading of the detection count). -/
def runsRecorded (run_ids : List String) (t : Track) : ℕ :=
  (run_ids.filter fun r => (t.lookup ("feature_id_" ++ r)).isSome).length

/-! #### String-key facts -/

theorem string_append_right_inj (pre : String) {a b : String}
    (h : pre ++ a = pre ++ b) : a = b := by
  obtain ⟨pd⟩ := pre; obtain ⟨ad⟩ := a; obtain ⟨bd⟩ := b
  have hd : pd ++ ad = pd ++ bd := congrArg String.data h
  exact congrArg String.mk (List.append_cancel_left hd)

theorem key_take2_ne {s t : String} (a b : List Char)
    (ha : s.data.take 2 = a) (hb : t.data.take 2 = b) (hne : a ≠ b) :
    s ≠ t := by
  intro h
  rw [h, hb] at ha
  exact hne ha.symm

theorem key_fid_ne_depth (r r' : String) :
    ("feature_id_" ++ r) ≠ ("depth_" ++ r') :=
  key_take2_ne ['f', 'e'] ['d', 'e'] rfl rfl (by decide)

theorem key_fid_ne_distance (r r' : String) :
    ("feature_id_" ++ r) ≠ ("distance_" ++ r') :=
  key_take2_ne ['f', 'e'] ['d', 'i'] rfl rfl (by decide)

theorem key_depth_ne_distance (r r' : String) :
    ("depth_" ++ r) ≠ ("distance_" ++ r') :=
  key_take2_ne ['d', 'e'] ['d', 'i'] rfl rfl (by decide)

theorem sw_fid (r : String) :
    strStartsWith ("feature_id_" ++ r) "feature_id_" = true := by
  have hd : ("feature_id_" ++ r).data = "feature_id_".data ++ r.data := rfl
  rw [strStartsWith, hd, List.isPrefixOf_iff_prefix]
  exact List.prefix_append _ _

theorem sw_not_fid {pre : String} (a : List Char) (r : String)
    (ha : (pre.data ++ r.data).take 2 = a) (hne : List.take 2 a ≠ ['f', 'e']) :
    strStartsWith (pre ++ r) "feature_id_" = false := by
  have hd : (pre ++ r).data = pre.data ++ r.data := rfl
  rw [strStartsWith, hd, Bool.eq_false_iff]
  intro hT
  rw [List.isPrefixOf_iff_prefix] at hT
  have h2 := hT.take 2
  have e1 : ("feature_id_".data).take 2 = ['f', 'e'] := rfl
  rw [e1, ha] at h2
  rw [List.prefix_iff_eq_take] at h2
  exact hne h2.symm

theorem sw_depth (r : String) :
    strStartsWith ("depth_" ++ r) "feature_id_" = false :=
  sw_not_fid ['d', 'e'] r rfl (by decide)

theorem sw_distance (r : String) :
    strStartsWith ("distance_" ++ r) "feature_id_" = false :=
  sw_not_fid ['d', 'i'] r rfl (by decide)

/-! #### Dict-update lemmas -/

theorem setKey_keys_of_mem {t : Track} {k : String} (v : TrackVal)
    (h : (t.any fun p => p.1 == k) = true) :
    (setKey t k v).map Prod.fst = t.map Prod.fst := by
  unfold setKey
  rw [if_pos h, List.map_map]
  apply List.map_congr_left
  intro p _
  by_cases hp : (p.1 == k) = true
  · simp only [Function.comp_apply, if_pos hp]
    exact ((beq_iff_eq).mp hp).symm
  · simp only [Function.comp_apply, if_neg hp]

theorem setKey_keys_of_not_mem {t : Track} {k : String} (v : TrackVal)
    (h : (t.any fun p => p.1 == k) = false) :
    (setKey t k v).map Prod.fst = t.map Prod.fst ++ [k] := by
  unfold setKey
  rw [if_neg (by simp [h]), List.map_append]
  rfl

theorem not_mem_keys_of_any_false {t : Track} {k : String}
    (h : (t.any fun p => p.1 == k) = false) : k ∉ t.map Prod.fst := by
  intro hk
  rw [List.any_eq_false] at h
  obtain ⟨p, hp, hk1⟩ := List.mem_map.mp hk
  exact (h p hp) (by simp [hk1])

theorem setKey_mem {t : Track} {k : String} {v : TrackVal}
    {q : String × TrackVal} (h : q ∈ setKey t k v) : q = (k, v) ∨ q ∈ t := by
  unfold setKey at h
  split at h
  · obtain ⟨p, hp, hq⟩ := List.mem_map.mp h
    by_cases hpk : (p.1 == k) = true
    · rw [if_pos hpk] at hq
      exact Or.inl hq.symm
    · rw [if_neg hpk] at hq
      exact Or.inr (hq ▸ hp)
  · rcases List.mem_append.mp h with h | h
    · exact Or.inr h
    · exact Or.inl (by simpa using h)

theorem setKey_keys_nodup {t : Track} {k : String} (v : TrackVal)
    (h : (t.map Prod.fst).Nodup) : ((setKey t k v).map Prod.fst).Nodup := by
  cases hany : (t.any fun p => p.1 == k) with
  | true => rw [setKey_keys_of_mem v hany]; exact h
  | false =>
    rw [setKey_keys_of_not_mem v hany, List.nodup_append]
    refine ⟨h, List.nodup_singleton _, ?_⟩
    intro a ha hb
    rw [List.mem_singleton] at hb
    exact not_mem_keys_of_any_false hany (hb ▸ ha)

/-! #### The construction invariant -/

/-- A well-formed track: no duplicate keys, and every `feature_id_*` key
names a known run and holds a feature-identifier value. -/
def GoodTrack (run_ids : List String) (t : Track) : Prop :=
  (t.map Prod.fst).Nodup ∧
  ∀ p ∈ t, strStartsWith p.1 "feature_id_" = true →
    (∃ r ∈ run_ids, p.1 = "feature_id_" ++ r) ∧ ∃ s, p.2 = TrackVal.fid s

theorem setKey_good_fid {run_ids : List String} {t : Track} {rb : String}
    (hrb : rb ∈ run_ids) (s : String) (hg : GoodTrack run_ids t) :
    GoodTrack run_ids (setKey t ("feature_id_" ++ rb) (TrackVal.fid s)) := by
  refine ⟨setKey_keys_nodup _ hg.1, ?_⟩
  intro p hp hsw
  rcases setKey_mem hp with rfl | hpt
  · exact ⟨⟨rb, hrb, rfl⟩, s, rfl⟩
  · exact hg.2 p hpt hsw

theorem setKey_good_depth {run_ids : List String} {t : Track} {rb : String}
    (q : Option ℚ) (hg : GoodTrack run_ids t) :
    GoodTrack run_ids (setKey t ("depth_" ++ rb) (TrackVal.num q)) := by
  refine ⟨setKey_keys_nodup _ hg.1, ?_⟩
  intro p hp hsw
  rcases setKey_mem hp with rfl | hpt
  · simp [sw_depth] at hsw
  · exact hg.2 p hpt hsw

theorem nodup_four {a b c d : String} (hab : a ≠ b) (hac : a ≠ c)
    (had : a ≠ d) (hbc : b ≠ c) (hbd : b ≠ d) (hcd : c ≠ d) :
    ([a, b, c, d] : List String).Nodup := by
  simp [List.nodup_cons, List.mem_cons, hab, hac, had, hbc, hbd, hcd]

theorem nodup_five {a b c d e : String} (hab : a ≠ b) (hac : a ≠ c)
    (had : a ≠ d) (hae : a ≠ e) (hbc : b ≠ c) (hbd : b ≠ d) (hbe : b ≠ e)
    (hcd : c ≠ d) (hce : c ≠ e) (hde : d ≠ e) :
    ([a, b, c, d, e] : List String).Nodup := by
  simp [List.nodup_cons, List.mem_cons, hab, hac, had, hae, hbc, hbd, hbe,
    hcd, hce, hde]

theorem fid_key_inj : Function.Injective
    (fun r => "feature_id_" ++ r : String → String) := by
  intro a b h
  exact string_append_right_inj "feature_id_" h

theorem lateSeed_good {run_ids : List String} {ra rb : String}
    (hra : ra ∈ run_ids) (hrb : rb ∈ run_ids) (hne : ra ≠ rb)
    (m : PairMatch) : GoodTrack run_ids (lateSeed ra rb m) := by
  constructor
  · show ([_, _, _, _] : List String).Nodup
    exact nodup_four (fun h => hne (string_append_right_inj _ h))
      (key_fid_ne_depth _ _) (key_fid_ne_depth _ _) (key_fid_ne_depth _ _)
      (key_fid_ne_depth _ _) (fun h => hne (string_append_right_inj _ h))
  · intro p hp hsw
    unfold lateSeed at hp
    rcases List.mem_cons.mp hp with rfl | hp
    · exact ⟨⟨ra, hra, rfl⟩, _, rfl⟩
    rcases List.mem_cons.mp hp with rfl | hp
    · exact ⟨⟨rb, hrb, rfl⟩, _, rfl⟩
    rcases List.mem_cons.mp hp with rfl | hp
    · simp [sw_depth] at hsw
    rcases List.mem_cons.mp hp with rfl | hp
    · simp [sw_depth] at hsw
    simp at hp

theorem seedTrack_good {run_ids : List String} (hnd : run_ids.Nodup)
    (hlen : 2 ≤ run_ids.length) (m : PairMatch) :
    GoodTrack run_ids (seedTrack run_ids m) := by
  have h0 : run_ids.getD 0 "" = run_ids[0] :=
    List.getD_eq_getElem run_ids "" (by omega)
  have h1 : run_ids.getD 1 "" = run_ids[1] :=
    List.getD_eq_getElem run_ids "" (by omega)
  have hne : run_ids.getD 0 "" ≠ run_ids.getD 1 "" := by
    rw [h0, h1]
    intro h
    have := (List.Nodup.getElem_inj_iff hnd).mp h
    omega
  have hm0 : run_ids.getD 0 "" ∈ run_ids := h0 ▸ List.getElem_mem _
  have hm1 : run_ids.getD 1 "" ∈ run_ids := h1 ▸ List.getElem_mem _
  constructor
  · show ([_, _, _, _, _] : List String).Nodup
    exact nodup_five (fun h => hne (string_append_right_inj _ h))
      (key_fid_ne_depth _ _) (key_fid_ne_depth _ _) (key_fid_ne_distance _ _)
      (key_fid_ne_depth _ _) (key_fid_ne_depth _ _) (key_fid_ne_distance _ _)
      (fun h => hne (string_append_right_inj _ h)) (key_depth_ne_distance _ _)
      (key_depth_ne_distance _ _)
  · intro p hp hsw
    unfold seedTrack at hp
    rcases List.mem_cons.mp hp with rfl | hp
    · exact ⟨⟨_, hm0, rfl⟩, _, rfl⟩
    rcases List.mem_cons.mp hp with rfl | hp
    · exact ⟨⟨_, hm1, rfl⟩, _, rfl⟩
    rcases List.mem_cons.mp hp with rfl | hp
    · simp [sw_depth] at hsw
    rcases List.mem_cons.mp hp with rfl | hp
    · simp [sw_depth] at hsw
    rcases List.mem_cons.mp hp with rfl | hp
    · simp [sw_distance] at hsw
    simp at hp

/-! #### Extension preserves ids and track well-formedness -/

theorem extendFirst_some_keys (ra rb : String) (m : PairMatch) :
    ∀ ts ts', extendFirst ra rb m ts = some ts' →
      ts'.map Prod.fst = ts.map Prod.fst := by
  intro ts
  induction ts with
  | nil => intro ts' h; cases h
  | cons p rest ih =>
    intro ts' h
    obtain ⟨tid, t⟩ := p
    rw [extendFirst] at h
    split at h
    · injection h with h
      subst h
      simp
    · cases hrec : extendFirst ra rb m rest with
      | none => rw [hrec] at h; cases h
      | some r =>
        rw [hrec] at h
        injection h with h
        subst h
        simp [ih r hrec]

theorem extendFirst_some_good {run_ids : List String} {ra rb : String}
    {m : PairMatch} (hrb : rb ∈ run_ids) :
    ∀ ts ts', extendFirst ra rb m ts = some ts' →
      (∀ q ∈ ts, GoodTrack run_ids q.2) →
      ∀ q ∈ ts', GoodTrack run_ids q.2 := by
  intro ts
  induction ts with
  | nil => intro ts' h; cases h
  | cons p rest ih =>
    intro ts' h hg
    obtain ⟨tid, t⟩ := p
    rw [extendFirst] at h
    split at h
    · injection h with h
      subst h
      intro q hq
      rcases List.mem_cons.mp hq with rfl | hq
      · exact setKey_good_depth _ (setKey_good_fid hrb _
          (hg (tid, t) (List.mem_cons_self _ _)))
      · exact hg q (List.mem_cons_of_mem _ hq)
    · cases hrec : extendFirst ra rb m rest with
      | none => rw [hrec] at h; cases h
      | some r =>
        rw [hrec] at h
        injection h with h
        subst h
        intro q hq
        rcases List.mem_cons.mp hq with rfl | hq
        · exact hg _ (List.mem_cons_self _ _)
        · exact ih r hrec (fun q' hq' => hg q' (List.mem_cons_of_mem _ hq')) q hq

/-! #### The state invariant through the fold -/

/-- The state invariant of the chaining loop: track ids are exactly
`0, 1, …, next_track_id − 1` in insertion order, and every track is
well-formed. -/
def GoodState (run_ids : List String) (st : List (ℕ × Track) × ℕ) : Prop :=
  st.1.map Prod.fst = List.range st.2 ∧ ∀ q ∈ st.1, GoodTrack run_ids q.2

theorem stepMatch_good {run_ids : List String} {ra rb : String}
    {st : List (ℕ × Track) × ℕ} {m : PairMatch}
    (hra : ra ∈ run_ids) (hrb : rb ∈ run_ids) (hne : ra ≠ rb)
    (hg : GoodState run_ids st) : GoodState run_ids (stepMatch ra rb st m) := by
  unfold stepMatch
  cases hef : extendFirst ra rb m st.1 with
  | some ts =>
    refine ⟨?_, ?_⟩
    · rw [extendFirst_some_keys ra rb m st.1 ts hef]
      exact hg.1
    · exact extendFirst_some_good hrb st.1 ts hef hg.2
  | none =>
    refine ⟨?_, ?_⟩
    · simp only [List.map_append, List.map_cons, List.map_nil, hg.1,
        List.range_succ]
    · intro q hq
      rcases List.mem_append.mp hq with h | h
      · exact hg.2 q h
      · rw [List.mem_singleton] at h
        subst h
        exact lateSeed_good hra hrb hne m

theorem stepMatch_counter {ra rb : String} (st : List (ℕ × Track) × ℕ)
    (m : PairMatch) : st.2 ≤ (stepMatch ra rb st m).2 := by
  unfold stepMatch
  cases extendFirst ra rb m st.1 <;> simp

theorem foldl_stepMatch_good {run_ids : List String} {ra rb : String}
    (hra : ra ∈ run_ids) (hrb : rb ∈ run_ids) (hne : ra ≠ rb) :
    ∀ (ms : List PairMatch) (st : List (ℕ × Track) × ℕ),
      GoodState run_ids st →
      GoodState run_ids (ms.foldl (stepMatch ra rb) st) := by
  intro ms
  induction ms with
  | nil => intro st hg; exact hg
  | cons m ms ih =>
    intro st hg
    exact ih _ (stepMatch_good hra hrb hne hg)

theorem foldl_stepMatch_counter {ra rb : String} :
    ∀ (ms : List PairMatch) (st : List (ℕ × Track) × ℕ),
      st.2 ≤ (ms.foldl (stepMatch ra rb) st).2 := by
  intro ms
  induction ms with
  | nil => intro st; exact le_refl _
  | cons m ms ih =>
    intro st
    exact le_trans (stepMatch_counter st m) (ih _)

theorem stepPair_good {run_ids : List String} {st : List (ℕ × Track) × ℕ}
    {pr : ℕ × List PairMatch} (hnd : run_ids.Nodup)
    (hi : pr.1 + 1 < run_ids.length)
    (hg : GoodState run_ids st) : GoodState run_ids (stepPair run_ids st pr) := by
  unfold stepPair
  split
  · exact hg
  · have h0 : run_ids.getD pr.1 "" = run_ids[pr.1] :=
      List.getD_eq_getElem run_ids "" (by omega)
    have h1 : run_ids.getD (pr.1 + 1) "" = run_ids[pr.1 + 1] :=
      List.getD_eq_getElem run_ids "" hi
    have hra : run_ids.getD pr.1 "" ∈ run_ids := h0 ▸ List.getElem_mem _
    have hrb : run_ids.getD (pr.1 + 1) "" ∈ run_ids := h1 ▸ List.getElem_mem _
    have hne : run_ids.getD pr.1 "" ≠ run_ids.getD (pr.1 + 1) "" := by
      rw [h0, h1]
      intro h
      have := (List.Nodup.getElem_inj_iff hnd).mp h
      omega
    exact foldl_stepMatch_good hra hrb hne pr.2 st hg

theorem stepPair_counter (run_ids : List String) (st : List (ℕ × Track) × ℕ)
    (pr : ℕ × List PairMatch) : st.2 ≤ (stepPair run_ids st pr).2 := by
  unfold stepPair
  split
  · exact le_refl _
  · exact foldl_stepMatch_counter pr.2 st

theorem foldl_stepPair_good {run_ids : List String} (hnd : run_ids.Nodup) :
    ∀ (prs : List (ℕ × List PairMatch)) (st : List (ℕ × Track) × ℕ),
      (∀ pr ∈ prs, pr.1 + 1 < run_ids.length) → GoodState run_ids st →
      GoodState run_ids (prs.foldl (stepPair run_ids) st) := by
  intro prs
  induction prs with
  | nil => intro st _ hg; exact hg
  | cons pr prs ih =>
    intro st hidx hg
    exact ih _ (fun q hq => hidx q (List.mem_cons_of_mem _ hq))
      (stepPair_good hnd (hidx pr (List.mem_cons_self _ _)) hg)

theorem foldl_stepPair_counter (run_ids : List String) :
    ∀ (prs : List (ℕ × List PairMatch)) (st : List (ℕ × Track) × ℕ),
      st.2 ≤ (prs.foldl (stepPair run_ids) st).2 := by
  intro prs
  induction prs with
  | nil => intro st; exact le_refl _
  | cons pr prs ih =>
    intro st
    exact le_trans (stepPair_counter run_ids st pr) (ih _)

/-! #### Detection counting -/

theorem lookup_isSome_iff_mem_keys (t : Track) (k : String) :
    (t.lookup k).isSome = true ↔ k ∈ t.map Prod.fst := by
  induction t with
  | nil => simp [List.lookup]
  | cons p rest ih =>
    obtain ⟨k', v⟩ := p
    rw [List.lookup]
    cases h : (k == k') with
    | true =>
      have heq : k = k' := by simpa using h
      simp [heq]
    | false =>
      have hne : k ≠ k' := by simpa using h
      simp [ih, hne]

theorem length_eq_of_nodup_of_mem_iff {l1 l2 : List String}
    (h1 : l1.Nodup) (h2 : l2.Nodup) (h : ∀ a, a ∈ l1 ↔ a ∈ l2) :
    l1.length = l2.length := by
  have hts : l1.toFinset = l2.toFinset := by
    ext a
    simp [List.mem_toFinset, h a]
  calc l1.length = l1.toFinset.card := (List.toFinset_card_of_nodup h1).symm
    _ = l2.toFinset.card := by rw [hts]
    _ = l2.length := List.toFinset_card_of_nodup h2

theorem n_det_eq_runs {run_ids : List String} (hnd : run_ids.Nodup)
    {t : Track} (hg : GoodTrack run_ids t) :
    n_detections t = runsRecorded run_ids t := by
  have hfil : (t.filter fun p => strStartsWith p.1 "feature_id_"
      && !(p.2 == TrackVal.num none))
      = t.filter fun p => strStartsWith p.1 "feature_id_" := by
    apply List.filter_congr
    intro p hp
    cases hsw : strStartsWith p.1 "feature_id_" with
    | false => simp
    | true =>
      obtain ⟨-, s, hs⟩ := hg.2 p hp hsw
      simp [hs]
  have hSnodup : ((t.filter fun p =>
      strStartsWith p.1 "feature_id_").map Prod.fst).Nodup :=
    ((List.filter_sublist t).map Prod.fst).nodup hg.1
  have hRnodup : (((run_ids.filter fun r =>
      (t.lookup ("feature_id_" ++ r)).isSome)).map
        (fun r => "feature_id_" ++ r)).Nodup :=
    (List.Nodup.filter _ hnd).map fid_key_inj
  have hmem : ∀ k, k ∈ (t.filter fun p =>
        strStartsWith p.1 "feature_id_").map Prod.fst
      ↔ k ∈ ((run_ids.filter fun r =>
          (t.lookup ("feature_id_" ++ r)).isSome)).map
            (fun r => "feature_id_" ++ r) := by
    intro k
    constructor
    · intro hk
      obtain ⟨p, hpf, hpk⟩ := List.mem_map.mp hk
      obtain ⟨hp, hsw⟩ := List.mem_filter.mp hpf
      obtain ⟨⟨r, hr, hkey⟩, -⟩ := hg.2 p hp hsw
      refine List.mem_map.mpr ⟨r, List.mem_filter.mpr ⟨hr, ?_⟩, ?_⟩
      · rw [← hkey, lookup_isSome_iff_mem_keys]
        exact List.mem_map.mpr ⟨p, hp, rfl⟩
      · rw [← hkey]
        exact hpk
    · intro hk
      obtain ⟨r, hrf, hrk⟩ := List.mem_map.mp hk
      obtain ⟨hr, hlk⟩ := List.mem_filter.mp hrf
      rw [lookup_isSome_iff_mem_keys] at hlk
      obtain ⟨p, hp, hpk⟩ := List.mem_map.mp hlk
      refine List.mem_map.mpr ⟨p, List.mem_filter.mpr ⟨hp, ?_⟩, ?_⟩
      · rw [hpk]
        exact sw_fid r
      · rw [hpk]
        exact hrk
  have hlen := length_eq_of_nodup_of_mem_iff hSnodup hRnodup hmem
  rw [List.length_map, List.length_map] at hlen
  rw [n_detections, hfil, runsRecorded]
  exact hlen

/-! #### Assembling the seed/extend/count facts -/

theorem init_good {run_ids : List String} (hnd : run_ids.Nodup)
    (hlen : 2 ≤ run_ids.length) (first : List PairMatch) :
    GoodState run_ids
      (first.enum.map fun p => (p.1, seedTrack run_ids p.2), first.length) := by
  constructor
  · rw [List.map_map]
    have hcomp : (Prod.fst ∘ fun p : ℕ × PairMatch =>
        (p.1, seedTrack run_ids p.2)) = Prod.fst := rfl
    rw [hcomp, List.enum_map_fst]
  · intro q hq
    obtain ⟨p, hp, hq⟩ := List.mem_map.mp hq
    rw [← hq]
    exact seedTrack_good hnd hlen p.2

theorem rest_idx_bound (rest : List (List PairMatch)) (run_ids : List String)
    (hlen : run_ids.length = rest.length + 2) :
    ∀ pr ∈ rest.enum.map fun p => (p.1 + 1, p.2),
      pr.1 + 1 < run_ids.length := by
  intro pr hpr
  obtain ⟨p, hp, hq⟩ := List.mem_map.mp hpr
  have h1 : p.1 ∈ rest.enum.map Prod.fst := List.mem_map.mpr ⟨p, hp, rfl⟩
  rw [List.enum_map_fst, List.mem_range] at h1
  have h2 : pr.1 = p.1 + 1 := by rw [← hq]
  omega

/-- **C9** (amended): when the first pairwise table is non-empty,
`build_tracks` implements the seed/extend-first/new-track algorithm of
the specification, seeds exactly one track per first-pair match, keeps
every track (ids are exactly `0..N-1`, never merged or dropped), and
every track's `n_detections` equals the number of runs for which it
records a feature identifier. -/
theorem build_tracks_seed_extend_count
    (first : List PairMatch) (rest : List (List PairMatch))
    (run_ids : List String)
    (hfe : first ≠ []) (hnd : run_ids.Nodup)
    (hlen : run_ids.length = rest.length + 2) :
    build_tracks (first :: rest) run_ids
        = buildTracksSpec (first :: rest) run_ids
    ∧ (build_tracks [first] run_ids).length = first.length
    ∧ (build_tracks (first :: rest) run_ids).map TrackRec.track_id
        = List.range ((build_tracks (first :: rest) run_ids).length)
    ∧ first.length ≤ (build_tracks (first :: rest) run_ids).length
    ∧ ∀ tr ∈ build_tracks (first :: rest) run_ids,
        tr.n_detections = runsRecorded run_ids tr.fields := by
  have hlen2 : 2 ≤ run_ids.length := by omega
  have hne_empty : ¬ first.isEmpty = true := by
    simp [List.isEmpty_iff, hfe]
  have hunfold : build_tracks (first :: rest) run_ids
      = ((rest.enum.map fun p => (p.1 + 1, p.2)).foldl (stepPair run_ids)
          (first.enum.map fun p => (p.1, seedTrack run_ids p.2),
            first.length)).1.map fun p => ⟨p.1, n_detections p.2, p.2⟩ := by
    rw [build_tracks, if_neg hne_empty]
  obtain ⟨hids, hgood⟩ := foldl_stepPair_good hnd
    (rest.enum.map fun p => (p.1 + 1, p.2))
    (first.enum.map fun p => (p.1, seedTrack run_ids p.2), first.length)
    (rest_idx_bound rest run_ids hlen) (init_good hnd hlen2 first)
  have hcnt := foldl_stepPair_counter run_ids
    (rest.enum.map fun p => (p.1 + 1, p.2))
    (first.enum.map fun p => (p.1, seedTrack run_ids p.2), first.length)
  have hflen := congrArg List.length hids
  simp only [List.length_map, List.length_range] at hflen
  simp only at hcnt
  refine ⟨?_, ?_, ?_, ?_, ?_⟩
  · rw [build_tracks, buildTracksSpec, if_neg hne_empty]
  · rw [build_tracks, if_neg hne_empty]
    simp [List.enum_length]
  · rw [hunfold, List.map_map, List.length_map]
    have hcomp : (TrackRec.track_id ∘ fun p : ℕ × Track =>
        (⟨p.1, n_detections p.2, p.2⟩ : TrackRec)) = Prod.fst := rfl
    rw [hcomp, hids]
    congr 1
    omega
  · rw [hunfold, List.length_map]
    omega
  · intro tr htr
    rw [hunfold] at htr
    obtain ⟨p, hp, htr'⟩ := List.mem_map.mp htr
    rw [← htr']
    exact n_det_eq_runs hnd (hgood p hp)

/-- C9 witness input: two matches in the first pair; in the second
pair, one match extends seeded track 0 via `B1` and one starts a new
mid-sequence track. -/
def pmEx1 : List PairMatch :=
  [⟨"A1", "B1", some 10, some 12, 100⟩, ⟨"A2", "B2", some 20, some 22, 200⟩]

/-- C9 witness input, second pair. -/
def pmEx2 : List PairMatch :=
  [⟨"B1", "C1", some 12, some 14, 101⟩, ⟨"B9", "C2", none, some 5, 300⟩]

/-- Witness for C9 at a concrete three-run input. -/
theorem build_tracks_seed_extend_count_witness :
    (pmEx1 ≠ [] ∧ (["R1", "R2", "R3"] : List String).Nodup
      ∧ (["R1", "R2", "R3"] : List String).length = [pmEx2].length + 2)
    ∧ (build_tracks (pmEx1 :: [pmEx2]) ["R1", "R2", "R3"]
        = buildTracksSpec (pmEx1 :: [pmEx2]) ["R1", "R2", "R3"]
      ∧ (build_tracks [pmEx1] ["R1", "R2", "R3"]).length = pmEx1.length
      ∧ (build_tracks (pmEx1 :: [pmEx2]) ["R1", "R2", "R3"]).map
            TrackRec.track_id
          = List.range ((build_tracks (pmEx1 :: [pmEx2])
              ["R1", "R2", "R3"]).length)
      ∧ pmEx1.length ≤ (build_tracks (pmEx1 :: [pmEx2])
          ["R1", "R2", "R3"]).length
      ∧ ∀ tr ∈ build_tracks (pmEx1 :: [pmEx2]) ["R1", "R2", "R3"],
          tr.n_detections = runsRecorded ["R1", "R2", "R3"] tr.fields) :=
  ⟨⟨by decide, by decide, by decide⟩,
    build_tracks_seed_extend_count pmEx1 [pmEx2] ["R1", "R2", "R3"]
      (by decide) (by decide) (by decide)⟩

/-- C9 counterexample: with an empty first pairwise table,
`build_tracks` returns the empty table even though the second pair has
a match, so that match does not start a new track — while the
specification's algorithm seeds it as track 0 with 2 detections. -/
theorem build_tracks_empty_first_counterexample :
    build_tracks [[], [⟨"B1", "C1", some 12, some 14, 101⟩]]
        ["R1", "R2", "R3"] = []
    ∧ buildTracksSpec [[], [⟨"B1", "C1", some 12, some 14, 101⟩]]
        ["R1", "R2", "R3"] ≠ []
    ∧ (buildTracksSpec [[], [⟨"B1", "C1", some 12, some 14, 101⟩]]
        ["R1", "R2", "R3"]).map (fun tr => (tr.track_id, tr.n_detections))
        = [(0, 2)] := by
  refine ⟨rfl, by decide, ?_⟩
  rfl
